import Mathlib

/-!
Verification of the AI gateway request-forwarding core.

The Rust sources are shallowly embedded:
* Rust `&str` / `String` values are modelled as `List Char` (`RStr`).  All the
  string operations used by the gateway (`trim`, `eq_ignore_ascii_case`,
  `starts_with`, `split_once`, byte length, …) are defined below, each
  mirroring the corresponding `std` operation.  Byte-indexed operations from
  the source (`path[prefix.len()..]`, `as_bytes().get(len)`) are expressed at
  char granularity; this agrees with the byte-level semantics on every valid
  UTF-8 string because the source only slices at boundaries it has checked
  with `starts_with`.
* `http::HeaderMap` is modelled as an association list of (name, value)
  pairs; header names are compared ASCII-case-insensitively exactly as the
  `http` crate does (it stores names lowercased).  The position at which
  `insert` stores a value is not observable through `get`/`remove`, which is
  all the gateway uses, so `insert` is modelled as remove-then-append.
* `std::collections::HashMap` (rate limiter counters) is modelled as an
  association list; the gateway never iterates it, so ordering is
  unobservable.
* `std::time` instants are modelled as natural numbers, `u64` counters as
  `Nat` (no gateway counter ever overflows along the modelled paths, and the
  comparisons involved are order comparisons only).
* The `DefaultHasher` fingerprint used by the concurrency controller and the
  URL parser of the external `url`/`reqwest` crates are library code outside
  this repository; they enter the model as explicit function parameters.
-/

/-- Rust string model: a list of unicode scalar values. -/
abbrev RStr := List Char

/-- Embed a Lean string literal as an `RStr`. -/
def rstr (s : String) : RStr := s.data

/-- Byte length of a Rust string (`str::len`). -/
def byteLen (s : RStr) : Nat := (s.map Char.utf8Size).sum

/-- `u8::to_ascii_lowercase` on a char (non-ASCII chars are untouched). -/
def asciiLowerChar (c : Char) : Char :=
  if 65 ≤ c.toNat ∧ c.toNat ≤ 90 then Char.ofNat (c.toNat + 32) else c

/-- ASCII-lowercase an entire string. -/
def asciiLower (s : RStr) : RStr := s.map asciiLowerChar

/-- Rust `str::eq_ignore_ascii_case`. -/
def eqIgnoreAsciiCase (a b : RStr) : Bool := asciiLower a = asciiLower b

/-- Rust `char::is_whitespace` (the Unicode White_Space property). -/
def rustIsWhitespace (c : Char) : Bool :=
  c.toNat ∈ ([9, 10, 11, 12, 13, 32, 0x85, 0xA0, 0x1680,
    0x2000, 0x2001, 0x2002, 0x2003, 0x2004, 0x2005, 0x2006, 0x2007,
    0x2008, 0x2009, 0x200A, 0x2028, 0x2029, 0x202F, 0x205F, 0x3000] : List Nat)

/-- Rust `str::trim_start`. -/
def rustTrimStart (s : RStr) : RStr := s.dropWhile rustIsWhitespace

/-- Rust `str::trim_end`. -/
def rustTrimEnd (s : RStr) : RStr := (s.reverse.dropWhile rustIsWhitespace).reverse

/-- Rust `str::trim`. -/
def rustTrim (s : RStr) : RStr := rustTrimEnd (rustTrimStart s)

/-- Rust `str::split_once(sep)`: split at the first occurrence of `sep`. -/
def splitOnce (sep : Char) : RStr → Option (RStr × RStr)
  | [] => none
  | c :: rest =>
      if c = sep then some ([], rest)
      else (splitOnce sep rest).map (fun p => (c :: p.1, p.2))

/-- Rust `s.split(sep).next().unwrap()`: the segment before the first `sep`
(the whole string when `sep` does not occur). -/
def takeUntilChar (sep : Char) (s : RStr) : RStr := s.takeWhile (· ≠ sep)

/-- Valid `http::HeaderName` byte (the `http` crate accepts exactly the RFC
7230 token chars; uppercase letters are normalised to lowercase on parse). -/
def isValidHeaderNameChar (c : Char) : Bool :=
  (48 ≤ c.toNat ∧ c.toNat ≤ 57) ∨ (97 ≤ c.toNat ∧ c.toNat ≤ 122) ∨
  (65 ≤ c.toNat ∧ c.toNat ≤ 90) ∨
  c ∈ (['!', '#', '$', '%', '&', '*', '+', '-', '.', '^', '_', '|', '~', '\x27', '`'] : List Char)

/-- `http::HeaderName::from_bytes` succeeds (nonempty, all token chars). -/
def isValidHeaderName (s : RStr) : Bool := ¬ s.isEmpty ∧ s.all isValidHeaderNameChar

/-- `http::HeaderValue::from_str` accepts the char: tab, or any byte that is
neither a control char nor DEL; chars ≥ U+0080 consist of bytes ≥ 0x80 which
the crate accepts. -/
def isValidHeaderValueChar (c : Char) : Bool :=
  c.toNat = 9 ∨ (32 ≤ c.toNat ∧ c.toNat ≠ 127)

/-- `http::HeaderValue::from_str` succeeds on the whole string. -/
def isValidHeaderValue (s : RStr) : Bool := s.all isValidHeaderValueChar

/-- `http::HeaderValue::to_str`: succeeds iff every byte is visible ASCII or
tab (any char ≥ U+0080 has bytes ≥ 0x80, which `to_str` rejects). -/
def headerValueToStr (s : RStr) : Option RStr :=
  if s.all (fun c => c.toNat = 9 ∨ (32 ≤ c.toNat ∧ c.toNat < 127)) then some s else none

/-- `http::HeaderMap`, modelled as an association list. -/
abbrev HMap := List (RStr × RStr)

/-- `HeaderMap::get`: first value stored under the (case-insensitive) name. -/
def hmGet (m : HMap) (name : RStr) : Option RStr :=
  (m.find? (fun e => asciiLower e.1 = asciiLower name)).map (·.2)

/-- `HeaderMap::remove`: drop every value stored under the name. -/
def hmRemove (m : HMap) (name : RStr) : HMap :=
  m.filter (fun e => ¬ asciiLower e.1 = asciiLower name)

/-- `HeaderMap::insert`: replace all values stored under the name.  The slot
position is unobservable through `get`/`remove`, so the model appends. -/
def hmInsert (m : HMap) (name value : RStr) : HMap :=
  hmRemove m name ++ [(name, value)]

/-! ## config.rs: configuration data model -/

inductive TokenSourceConfig
  | authorizationBearer
  | header (name : RStr)
deriving DecidableEq

structure GatewayAuthConfig where
  tokens : List RStr
  tokenSources : List TokenSourceConfig
deriving DecidableEq

structure HeaderInjection where
  name : RStr
  value : RStr
deriving DecidableEq

inductive ProxyProtocol
  | http
  | https
  | socks
deriving DecidableEq

structure UpstreamProxyConfig where
  protocol : ProxyProtocol
  address : RStr
  username : Option RStr
  password : Option RStr
deriving DecidableEq

structure UpstreamConfig where
  baseUrl : RStr
  stripPfx : Bool
  connectTimeoutMs : Nat
  requestTimeoutMs : Nat
  injectHeaders : List HeaderInjection
  removeHeaders : List RStr
  forwardXff : Bool
  proxy : Option UpstreamProxyConfig
  upstreamKeyMaxInflight : Option Nat
deriving DecidableEq

structure RouteConfig where
  id : RStr
  pfx : RStr
  upstream : UpstreamConfig
deriving DecidableEq

/-! ## proxy.rs: route matching, path rewriting, header pipeline -/

/-- `proxy::HOP_BY_HOP_HEADERS`. -/
def hopByHopHeaders : List RStr :=
  [rstr "connection", rstr "keep-alive", rstr "proxy-authenticate",
   rstr "proxy-authorization", rstr "te", rstr "trailer",
   rstr "transfer-encoding", rstr "upgrade"]

/-- `proxy::FORWARDED_IP_HEADERS`. -/
def forwardedIpHeaders : List RStr :=
  [rstr "x-forwarded-for", rstr "forwarded", rstr "cf-connecting-ip",
   rstr "true-client-ip", rstr "x-real-ip"]

/-- `proxy::path_matches_prefix`.  The byte probe
`path.as_bytes().get(prefix.len()) == Some(b'/')` is taken after
`path.starts_with(prefix)` has succeeded, so the byte index lies on the char
boundary right after the prefix; the model reads that char directly. -/
def pathMatchesPrefix (path pfx : RStr) : Bool :=
  if ¬ (rstr "/").isPrefixOf path ∨ ¬ (rstr "/").isPrefixOf pfx then false
  else if pfx = rstr "/" then true
  else if ¬ pfx.isPrefixOf path then false
  else if byteLen path = byteLen pfx then true
  else (path.drop pfx.length).head? = some '/'

/-- `proxy::normalize_path`. -/
def normalizePath (path : RStr) : RStr :=
  if path.isEmpty then rstr "/"
  else if (rstr "/").isPrefixOf path then path
  else '/' :: path

/-- The accumulator step of Rust `Iterator::max_by_key` (ties keep the LAST
maximal element: the incoming element replaces the accumulator whenever its
key is ≥ the accumulated key). -/
def maxByPrefixLenStep (acc : Option RouteConfig) (r : RouteConfig) : Option RouteConfig :=
  match acc with
  | none => some r
  | some a => if byteLen a.pfx ≤ byteLen r.pfx then some r else some a

/-- `proxy::match_route`: filter by the match predicate, then
`max_by_key(|route| route.prefix.len())`. -/
def matchRoute (path : RStr) (routes : List RouteConfig) : Option RouteConfig :=
  (routes.filter (fun r => pathMatchesPrefix path r.pfx)).foldl maxByPrefixLenStep none

/-- `proxy::rewrite_path`.  `&path[prefix.len()..]` is taken only after
`path_matches_prefix` (with a non-root prefix) has confirmed that `path`
starts with `prefix`, so the byte slice is char-aligned. -/
def rewritePath (path pfx : RStr) (stripPfx : Bool) : RStr :=
  if ¬ stripPfx then normalizePath path
  else if pfx = rstr "/" then normalizePath path
  else if ¬ pathMatchesPrefix path pfx then normalizePath path
  else
    let rest := path.drop pfx.length
    if rest.isEmpty then rstr "/" else normalizePath rest

/-- `proxy::remove_header_case_insensitive`: removal happens only when the
name parses as a `HeaderName`. -/
def removeHeaderCI (m : HMap) (name : RStr) : HMap :=
  if isValidHeaderName name then hmRemove m name else m

inductive ProxyError
  | invalidHeaderName (name : RStr)
  | invalidHeaderValue (value : RStr)
deriving DecidableEq

/-- `proxy::upsert_header`: validate name and value, then `HeaderMap::insert`
(the parsed `HeaderName` is the ASCII-lowercased name). -/
def upsertHeader (m : HMap) (inj : HeaderInjection) : Except ProxyError HMap :=
  if ¬ isValidHeaderName inj.name then .error (.invalidHeaderName inj.name)
  else if ¬ isValidHeaderValue inj.value then .error (.invalidHeaderValue inj.value)
  else .ok (hmInsert m (asciiLower inj.name) inj.value)

/-- `proxy::prepare_upstream_headers`. -/
def prepareUpstreamHeaders (inbound : HMap) (u : UpstreamConfig) : Except ProxyError HMap := do
  let m := hopByHopHeaders.foldl removeHeaderCI inbound
  let m := u.removeHeaders.foldl removeHeaderCI m
  let m := if ¬ u.forwardXff then forwardedIpHeaders.foldl removeHeaderCI m else m
  let m ← u.injectHeaders.foldlM upsertHeader m
  return hmRemove m (rstr "host")

/-- `proxy::sanitize_response_headers`. -/
def sanitizeResponseHeaders (upstreamHeaders : HMap) : HMap :=
  hopByHopHeaders.foldl removeHeaderCI upstreamHeaders

/-! ## auth.rs: token extraction and the allow-list check -/

/-- `auth::parse_bearer_token`: trim the whole value, split at the first
space, check the scheme case-insensitively, trim the token, require it
non-empty. -/
def parseBearerToken (value : RStr) : Option RStr :=
  match splitOnce ' ' (rustTrim value) with
  | none => none
  | some (scheme, token) =>
      if ¬ eqIgnoreAsciiCase scheme (rstr "bearer") then none
      else
        let token := rustTrim token
        if token.isEmpty then none else some token

/-- `auth::extract_token`: walk `token_sources` in order; the first source
that yields a candidate wins. -/
def extractToken (headers : HMap) : List TokenSourceConfig → Option RStr
  | [] => none
  | .authorizationBearer :: rest =>
      match (hmGet headers (rstr "authorization")).bind headerValueToStr with
      | some text =>
          match parseBearerToken text with
          | some token => some token
          | none => extractToken headers rest
      | none => extractToken headers rest
  | .header name :: rest =>
      if isValidHeaderName name then
        match (hmGet headers name).bind headerValueToStr with
        | some text =>
            if (rustTrim text).isEmpty then extractToken headers rest
            else some (rustTrim text)
        | none => extractToken headers rest
      else extractToken headers rest

/-- `auth::extract_authorized_token`. -/
def extractAuthorizedToken (headers : HMap) (ga : GatewayAuthConfig) : Option RStr :=
  match extractToken headers ga.tokenSources with
  | none => none
  | some token => if ga.tokens.any (fun allowed => allowed = token) then some token else none

/-- `auth::is_authorized`. -/
def isAuthorized (headers : HMap) (ga : GatewayAuthConfig) : Bool :=
  (extractAuthorizedToken headers ga).isSome

/-- The auth step of `server::proxy_handler`: an unauthorized request is
answered with status 401 and error code `unauthorized`. -/
def authAdmission (headers : HMap) (ga : GatewayAuthConfig) : Except (Nat × RStr) RStr :=
  match extractAuthorizedToken headers ga with
  | some token => .ok token
  | none => .error (401, rstr "unauthorized")

/-! ## ratelimit.rs: fixed-window rate limiter -/

inductive RateLimitDecision
  | allowed
  | rejected (retryAfterSecs : Nat)
deriving DecidableEq

structure RateLimiterState where
  minuteBucket : Nat
  counters : List (RStr × Nat)
deriving DecidableEq

/-- Association-list lookup standing in for `HashMap::get`. -/
def countersGet (cs : List (RStr × Nat)) (key : RStr) : Option Nat :=
  (cs.find? (fun e => e.1 = key)).map (·.2)

/-- `HashMap::entry(key).or_insert(0)`: ensure the key is present. -/
def countersEnsure (cs : List (RStr × Nat)) (key : RStr) : List (RStr × Nat) :=
  if (cs.find? (fun e => e.1 = key)).isSome then cs else cs ++ [(key, 0)]

/-- Overwrite the value stored at `key` (the key is present). -/
def countersSet (cs : List (RStr × Nat)) (key : RStr) (v : Nat) : List (RStr × Nat) :=
  cs.map (fun e => if e.1 = key then (e.1, v) else e)

/-- `ratelimit::retry_after_seconds`. -/
def retryAfterSeconds (epochSeconds : Nat) : Nat :=
  let remaining := 60 - epochSeconds % 60
  if remaining = 0 then 60 else remaining

/-- `RateLimiter::check_at_epoch_seconds` as a state transition: rotate the
window if the minute changed, ensure the key, then reject or increment. -/
def checkAtEpochSeconds (perMinute : Nat) (st : RateLimiterState)
    (token routeId : RStr) (epochSeconds : Nat) :
    RateLimitDecision × RateLimiterState :=
  let minuteBucket := epochSeconds / 60
  let st := if st.minuteBucket ≠ minuteBucket then
    { minuteBucket := minuteBucket, counters := [] } else st
  let key := routeId ++ '\n' :: token
  let cs := countersEnsure st.counters key
  let counter := (countersGet cs key).getD 0
  if perMinute ≤ counter then
    (.rejected (retryAfterSeconds epochSeconds), { st with counters := cs })
  else
    (.allowed, { st with counters := countersSet cs key (counter + 1) })

/-! ## config.rs: remaining configuration sections -/

structure InboundTlsConfig where
  certPath : Option RStr
  keyPath : Option RStr
  selfSignedCertPath : RStr
  selfSignedKeyPath : RStr
deriving DecidableEq

structure CorsConfig where
  enabled : Bool
  allowOrigins : List RStr
  allowHeaders : List RStr
  allowMethods : List RStr
  exposeHeaders : List RStr
deriving DecidableEq

structure RateLimitConfig where
  perMinute : Nat
deriving DecidableEq

structure ConcurrencyConfig where
  downstreamMaxInflight : Option Nat
  upstreamPerKeyMaxInflight : Option Nat
deriving DecidableEq

inductive LogFormat
  | json
  | text
deriving DecidableEq

inductive LogRotation
  | minutely
  | hourly
  | daily
  | never
deriving DecidableEq

structure LogFileConfig where
  enabled : Bool
  dir : RStr
  filePfx : RStr
  rotation : LogRotation
  maxFiles : Nat
deriving DecidableEq

structure LoggingConfig where
  level : RStr
  format : LogFormat
  toStdout : Bool
  file : Option LogFileConfig
deriving DecidableEq

structure MetricsConfig where
  enabled : Bool
  path : RStr
  token : RStr
deriving DecidableEq

structure OtlpConfig where
  endpoint : RStr
  timeoutMs : Nat
deriving DecidableEq

/-- `sample_ratio` is an `f64` in the source; the only operation ever applied
to it is the order comparison `(0.0..=1.0).contains`, which `Rat` models
faithfully for every non-NaN ratio (a NaN fails the range check, i.e. behaves
like any out-of-range `Rat`). -/
structure TracingConfig where
  enabled : Bool
  sampleRat : Rat
  otlp : Option OtlpConfig
deriving DecidableEq

structure ObservabilityConfig where
  logging : LoggingConfig
  metrics : MetricsConfig
  tracing : TracingConfig
deriving DecidableEq

structure AppConfig where
  listen : RStr
  gatewayAuth : GatewayAuthConfig
  routes : List RouteConfig
  inboundTls : Option InboundTlsConfig
  cors : Option CorsConfig
  rateLimit : Option RateLimitConfig
  concurrency : Option ConcurrencyConfig
  observability : Option ObservabilityConfig
deriving DecidableEq

/-! ## concurrency.rs: upstream-key derivation and the controller -/

/-- `concurrency::upstream_key_header_names` (also `config.rs`). -/
def upstreamKeyHeaderNames : List RStr := [rstr "authorization", rstr "x-api-key"]

/-- `concurrency::parse_bearer_token` (unlike the `auth.rs` namesake it does
not pre-trim the value; its caller already trimmed it). -/
def parseBearerTokenNoTrim (value : RStr) : Option RStr :=
  match splitOnce ' ' value with
  | none => none
  | some (scheme, token) =>
      if ¬ eqIgnoreAsciiCase scheme (rstr "bearer") then none
      else
        let token := rustTrim token
        if token.isEmpty then none else some token

/-- `concurrency::find_injected_header_value`: the LAST injected entry whose
trimmed name matches (via `.rev().find`), kept only when its trimmed value is
non-empty. -/
def findInjectedHeaderValue (route : RouteConfig) (headerName : RStr) : Option RStr :=
  (((route.upstream.injectHeaders.reverse.find?
      (fun h => eqIgnoreAsciiCase (rustTrim h.name) headerName)).map
      (fun h => rustTrim h.value)).filter (fun v => ¬ v.isEmpty))

/-- The scan loop of `concurrency::extract_upstream_key_from_injected_headers`. -/
def extractUpstreamKeyGo (route : RouteConfig) : List RStr → Option RStr
  | [] => none
  | hn :: rest =>
      match findInjectedHeaderValue route hn with
      | none => extractUpstreamKeyGo route rest
      | some text =>
          if eqIgnoreAsciiCase hn (rstr "authorization") then
            some (rstr "authorization:" ++ ((parseBearerTokenNoTrim text).getD text))
          else
            some (hn ++ ':' :: text)

/-- `concurrency::extract_upstream_key_from_injected_headers`. -/
def extractUpstreamKeyFromInjectedHeaders (route : RouteConfig) : Option RStr :=
  extractUpstreamKeyGo route upstreamKeyHeaderNames

/-- The key material `acquire_upstream` feeds to the fingerprint. -/
def upstreamKeyMaterial (route : RouteConfig) : RStr :=
  (extractUpstreamKeyFromInjectedHeaders route).getD (rstr "default")

/-- The lowercase hex digit for `n < 16`. -/
def hexDigitChar (n : Nat) : Char :=
  if n < 10 then Char.ofNat (48 + n) else Char.ofNat (87 + n)

/-- Rust `format!("{:016x}", v)` for a `u64` value: lowercase hex, left
zero-padded to 16 digits (a `u64` never needs more), most significant digit
first. -/
def hex16 (v : Nat) : RStr :=
  (List.range 16).reverse.map (fun i => hexDigitChar (v / 16 ^ i % 16))

/-- The semaphore-map key computed by `concurrency::acquire_upstream`.
`fp` stands for `DefaultHasher`-based `concurrency::fingerprint`, which is
`std` library code; its output is reduced mod 2^64 as a `u64`. -/
def semaphoreKey (fp : RStr → Nat) (route : RouteConfig) : RStr :=
  route.id ++ ':' :: hex16 (fp (upstreamKeyMaterial route) % 2 ^ 64)

/-- The key-selection part of `concurrency::acquire_upstream`: `none` when no
limit is in effect (no route override and no global default), otherwise the
effective limit (route override first) with the semaphore-map key. -/
def acquireUpstreamKey (fp : RStr → Nat) (upstreamDefaultLimit : Option Nat)
    (route : RouteConfig) : Option (Nat × RStr) :=
  match route.upstream.upstreamKeyMaxInflight with
  | some limit => some (limit, semaphoreKey fp route)
  | none =>
      match upstreamDefaultLimit with
      | some limit => some (limit, semaphoreKey fp route)
      | none => none

structure ConcurrencyControllerModel where
  downstreamLimit : Option Nat
  upstreamDefaultLimit : Option Nat
deriving DecidableEq

/-- `ConcurrencyController::new`. -/
def concurrencyControllerNew (cfg : AppConfig) : Option ConcurrencyControllerModel :=
  let downstreamLimit := cfg.concurrency.bind (·.downstreamMaxInflight)
  let upstreamDefaultLimit := cfg.concurrency.bind (·.upstreamPerKeyMaxInflight)
  let hasRouteOverride := cfg.routes.any (fun r => r.upstream.upstreamKeyMaxInflight.isSome)
  if downstreamLimit.isNone ∧ upstreamDefaultLimit.isNone ∧ ¬ hasRouteOverride then none
  else some { downstreamLimit := downstreamLimit, upstreamDefaultLimit := upstreamDefaultLimit }

/-! ## observability.rs: request id handling -/

/-- `observability::REQUEST_ID_HEADER`. -/
def requestIdHeader : RStr := rstr "x-request-id"

/-- `observability::is_valid_request_id`; `value.len()` is the byte length. -/
def isValidRequestId (value : RStr) : Bool :=
  if value.isEmpty ∨ 128 < byteLen value then false
  else value.all (fun ch =>
    (48 ≤ ch.toNat ∧ ch.toNat ≤ 57) ∨ (65 ≤ ch.toNat ∧ ch.toNat ≤ 90) ∨
    (97 ≤ ch.toNat ∧ ch.toNat ≤ 122) ∨ ch ∈ (['-', '_', '.'] : List Char))

/-- `observability::extract_or_generate_request_id`.  `freshUuid` stands for
the `uuid::Uuid::now_v7().to_string()` value generated when the header is
absent, unreadable, or (after trimming) invalid. -/
def extractOrGenerateRequestId (headers : HMap) (freshUuid : RStr) : RStr :=
  match ((hmGet headers requestIdHeader).bind headerValueToStr).map rustTrim with
  | some v => if isValidRequestId v then v else freshUuid
  | none => freshUuid

/-- `observability::insert_request_id_header`: the header is set only when
the id is a representable header value. -/
def insertRequestIdHeader (headers : HMap) (requestId : RStr) : HMap :=
  if isValidHeaderValue requestId then hmInsert headers requestIdHeader requestId else headers

/-! ## server.rs: SSE classification and the response-body deadline -/

/-- `server::is_sse_response`. -/
def isSseResponse (headers : HMap) : Bool :=
  match (hmGet headers (rstr "content-type")).bind headerValueToStr with
  | none => false
  | some value => eqIgnoreAsciiCase (rustTrim (takeUntilChar ';' value)) (rstr "text/event-stream")

/-- The io error kind produced when the response deadline elapses. -/
inductive IoErrorKind
  | timedOut
deriving DecidableEq

/-- An upstream response body, modelled as the chunks it produces together
with the instant each becomes available, plus the instant the stream ends. -/
structure UpstreamBody where
  chunks : List (Nat × RStr)
  endsAt : Nat

/-- `server::enforce_response_deadline`, as the downstream-observable item
sequence: each `try_next` is raced against `timeout_at(deadline)`; a chunk
available by the deadline is forwarded, otherwise a `TimedOut` io error is
yielded.  (After the first timeout every further poll of the `unfold` stream
times out again immediately; the axum body terminates on the first error, so
the observable sequence ends there.) -/
def enforceResponseDeadline (deadline : Nat) : List (Nat × RStr) → Nat →
    List (Except IoErrorKind RStr)
  | [], endsAt => if endsAt ≤ deadline then [] else [.error .timedOut]
  | (t, c) :: rest, endsAt =>
      if t ≤ deadline then .ok c :: enforceResponseDeadline deadline rest endsAt
      else [.error .timedOut]

/-- The body-stream part of `server::response_from_upstream`: SSE bodies are
passed through untouched, non-SSE bodies run under the deadline. -/
def responseBodyStream (isSse : Bool) (deadline : Nat) (body : UpstreamBody) :
    List (Except IoErrorKind RStr) :=
  if isSse then body.chunks.map (fun p => .ok p.2)
  else enforceResponseDeadline deadline body.chunks body.endsAt

/-- The deadline of `server::forward_to_upstream`:
`tokio::time::Instant::now() + request_timeout` computed once, before the
send, in milliseconds. -/
def forwardDeadline (now requestTimeoutMs : Nat) : Nat := now + requestTimeoutMs

/-- The downstream body produced by `forward_to_upstream` +
`response_from_upstream` for a response that delivered headers: classify by
`is_sse_response` and stream under (or free of) the single deadline. -/
def forwardedBodyStream (now : Nat) (route : RouteConfig) (respHeaders : HMap)
    (body : UpstreamBody) : List (Except IoErrorKind RStr) :=
  responseBodyStream (isSseResponse respHeaders)
    (forwardDeadline now route.upstream.requestTimeoutMs) body

/-! ## config.rs: `AppConfig::validate` -/

/-- Render an embedded Rust string for an error message. -/
def showR (s : RStr) : String := String.mk s

/-- Rust `str::ends_with('/')`. -/
def endsWithSlash (s : RStr) : Bool := s.getLast? = some '/'

/-- Rust `str::trim_end_matches('/')`. -/
def trimEndSlashes (s : RStr) : RStr := (s.reverse.dropWhile (· = '/')).reverse

/-- `config::route_has_upstream_key_injection`. -/
def routeHasUpstreamKeyInjection (route : RouteConfig) : Bool :=
  route.upstream.injectHeaders.any (fun h =>
    ¬ (rustTrim h.value).isEmpty ∧
    upstreamKeyHeaderNames.any (fun n => eqIgnoreAsciiCase (rustTrim h.name) (rustTrim n)))

/-- The per-route checks of `AppConfig::validate`, in source order, carrying
the `HashSet`s of already-seen ids and prefixes. -/
def validateRoutesGo (ids pfxs : List RStr) : List RouteConfig → Except String Unit
  | [] => .ok ()
  | r :: rest =>
      if (rustTrim r.id).isEmpty then
        .error "route `id` must not be empty"
      else if r.id ∈ ids then
        .error ("duplicate route id `" ++ showR r.id ++ "`")
      else if ¬ (rstr "/").isPrefixOf r.pfx then
        .error ("route `" ++ showR r.id ++ "` prefix must start with `/`")
      else if 1 < byteLen r.pfx ∧ endsWithSlash r.pfx then
        .error ("route `" ++ showR r.id ++ "` prefix must not end with `/`")
      else if r.pfx ∈ pfxs then
        .error ("duplicate route prefix `" ++ showR r.pfx ++ "`")
      else if (rustTrim r.upstream.baseUrl).isEmpty then
        .error ("route `" ++ showR r.id ++ "` upstream.base_url must not be empty")
      else if r.upstream.connectTimeoutMs = 0 then
        .error ("route `" ++ showR r.id ++ "` upstream.connect_timeout_ms must be > 0")
      else if r.upstream.requestTimeoutMs = 0 then
        .error ("route `" ++ showR r.id ++ "` upstream.request_timeout_ms must be > 0")
      else if r.upstream.upstreamKeyMaxInflight = some 0 then
        .error ("route `" ++ showR r.id ++
          "` upstream.upstream_key_max_inflight must be > 0 when provided")
      else
        match (match r.upstream.proxy with
          | none => Except.ok ()
          | some p =>
              if (rustTrim p.address).isEmpty then
                Except.error ("route `" ++ showR r.id ++
                  "` upstream.proxy.address must not be empty")
              else
                match p.username, p.password with
                | some u, some pw =>
                    if (rustTrim u).isEmpty ∨ (rustTrim pw).isEmpty then
                      Except.error ("route `" ++ showR r.id ++
                        "` upstream.proxy.username/password must not be empty")
                    else Except.ok ()
                | none, none => Except.ok ()
                | _, _ =>
                    Except.error ("route `" ++ showR r.id ++
                      "` upstream.proxy.username and upstream.proxy.password must be set together")) with
        | .error e => .error e
        | .ok _ =>
            if r.upstream.injectHeaders.any (fun h => (rustTrim h.name).isEmpty) then
              .error ("route `" ++ showR r.id ++ "` has empty inject_headers.name")
            else
              validateRoutesGo (ids ++ [r.id]) (pfxs ++ [r.pfx]) rest

/-- `config::validate_optional_path`. -/
def validateOptionalPath (path : Option RStr) (message : String) : Except String Unit :=
  match path with
  | some v => if (rustTrim v).isEmpty then .error message else .ok ()
  | none => .ok ()

/-- The observability section of `AppConfig::validate`.  `urlOk` models
`reqwest::Url::parse` (library code) succeeding on the given string. -/
def validateObservability (urlOk : RStr → Bool) (o : ObservabilityConfig) :
    Except String Unit := do
  if (rustTrim o.logging.level).isEmpty then
    throw "`observability.logging.level` must not be empty"
  if !o.logging.toStdout && !(match o.logging.file with
      | some f => f.enabled
      | none => false) then
    throw "`observability.logging` must enable at least one sink (`to_stdout` or `file.enabled`)"
  match o.logging.file with
  | some f =>
      if f.enabled then do
        if (rustTrim f.dir).isEmpty then
          throw "`observability.logging.file.dir` must not be empty"
        if (rustTrim f.filePfx).isEmpty then
          throw "`observability.logging.file.prefix` must not be empty"
        if f.maxFiles = 0 then
          throw "`observability.logging.file.max_files` must be > 0"
      else pure ()
  | none => pure ()
  if ¬ (rstr "/").isPrefixOf o.metrics.path then
    throw "`observability.metrics.path` must start with `/`"
  if o.metrics.path = rstr "/healthz" then
    throw "`observability.metrics.path` must not conflict with `/healthz`"
  if o.metrics.enabled ∧ (rustTrim o.metrics.token).isEmpty then
    throw "`observability.metrics.token` must not be empty when metrics are enabled"
  if ¬ (0 ≤ o.tracing.sampleRat ∧ o.tracing.sampleRat ≤ 1) then
    throw "`observability.tracing.sample_ratio` must be within [0.0, 1.0]"
  match o.tracing.otlp with
  | some otlp => do
      if (rustTrim otlp.endpoint).isEmpty then
        throw "`observability.tracing.otlp.endpoint` must not be empty"
      if ¬ urlOk (rustTrim otlp.endpoint) then
        throw "`observability.tracing.otlp.endpoint` must be a valid URL"
      if otlp.timeoutMs = 0 then
        throw "`observability.tracing.otlp.timeout_ms` must be > 0"
  | none => pure ()

/-- `AppConfig::validate`, in source order. -/
def validate (urlOk : RStr → Bool) (cfg : AppConfig) : Except String Unit := do
  if (rustTrim cfg.listen).isEmpty then
    throw "`listen` must not be empty"
  if cfg.gatewayAuth.tokens.isEmpty then
    throw "`gateway_auth.tokens` must not be empty"
  if cfg.gatewayAuth.tokens.any (fun t => (rustTrim t).isEmpty) then
    throw "`gateway_auth.tokens` must not contain empty values"
  if cfg.routes.isEmpty then
    throw "`routes` must contain at least one route"
  validateRoutesGo [] [] cfg.routes
  let hasRouteUpstreamKeyConcurrency :=
    cfg.routes.any (fun r => r.upstream.upstreamKeyMaxInflight.isSome)
  match cfg.rateLimit with
  | some rl => if rl.perMinute = 0 then throw "`rate_limit.per_minute` must be > 0" else pure ()
  | none => pure ()
  let hasGlobalUpstreamKeyConcurrency :=
    match cfg.concurrency with
    | some c => c.upstreamPerKeyMaxInflight.isSome
    | none => false
  match cfg.concurrency with
  | some c => do
      if c.downstreamMaxInflight = some 0 then
        throw "`concurrency.downstream_max_inflight` must be > 0 when provided"
      if c.upstreamPerKeyMaxInflight = some 0 then
        throw "`concurrency.upstream_per_key_max_inflight` must be > 0 when provided"
  | none => pure ()
  if hasGlobalUpstreamKeyConcurrency || hasRouteUpstreamKeyConcurrency then
    (cfg.routes.forM (fun route => do
      let routeUses := hasGlobalUpstreamKeyConcurrency ||
        route.upstream.upstreamKeyMaxInflight.isSome
      if routeUses && !routeHasUpstreamKeyInjection route then
        throw ("route `" ++ showR route.id ++
          "` must configure `upstream.inject_headers` with one of [\"authorization\", \"x-api-key\"] when upstream key concurrency is enabled")
      else pure ()))
  else pure ()
  match cfg.inboundTls with
  | some tls => do
      validateOptionalPath tls.certPath "`inbound_tls.cert_path` must not be empty when provided"
      validateOptionalPath tls.keyPath "`inbound_tls.key_path` must not be empty when provided"
      if (rustTrim tls.selfSignedCertPath).isEmpty then
        throw "`inbound_tls.self_signed_cert_path` must not be empty"
      if (rustTrim tls.selfSignedKeyPath).isEmpty then
        throw "`inbound_tls.self_signed_key_path` must not be empty"
      match tls.certPath, tls.keyPath with
      | some _, some _ => pure ()
      | none, none => pure ()
      | _, _ =>
          throw "`inbound_tls.cert_path` and `inbound_tls.key_path` must be set together"
  | none => pure ()
  match cfg.observability with
  | some o => validateObservability urlOk o
  | none => pure ()

/-! ## server.rs: building the runtime state (`build_app`) -/

/-- Behaviour of the external `url`/`reqwest` URL machinery, abstracted:
`parseOk s` models `reqwest::Url::parse(s)` succeeding, `credsOk s` models
`set_username`/`set_password` both succeeding on the URL parsed from `s`. -/
structure UrlEnv where
  parseOk : RStr → Bool
  credsOk : RStr → Bool

/-- The client configuration retained by `server::build_upstream_client`. -/
structure ClientModel where
  connectTimeoutMs : Nat
  proxyUrl : Option RStr
deriving DecidableEq

/-- `server::build_proxy_url`.  The source error strings wrap the library
error; the model keeps the stable message head. -/
def buildProxyUrl (env : UrlEnv) (p : UpstreamProxyConfig) : Except String RStr :=
  let scheme := match p.protocol with
    | .http => rstr "http"
    | .https => rstr "https"
    | .socks => rstr "socks5h"
  let urlStr := scheme ++ rstr "://" ++ rustTrim p.address
  if ¬ env.parseOk urlStr then .error "invalid upstream.proxy.address"
  else
    match p.username, p.password with
    | some _, some _ =>
        if env.credsOk urlStr then .ok urlStr else .error "invalid upstream.proxy.username"
    | _, _ => .ok urlStr

/-- `server::build_upstream_client`.  A `build_proxy_url` error propagates
unchanged (the source `?`); `reqwest::Proxy::all` on a parsed URL with
scheme http/https/socks5h and the final `ClientBuilder::build` are modelled
as succeeding (their failure modes are environmental, not
config-dependent). -/
def buildUpstreamClient (env : UrlEnv) (u : UpstreamConfig) : Except String ClientModel :=
  match u.proxy with
  | none => .ok { connectTimeoutMs := u.connectTimeoutMs, proxyUrl := none }
  | some p =>
      match buildProxyUrl env p with
      | .ok url => .ok { connectTimeoutMs := u.connectTimeoutMs, proxyUrl := some url }
      | .error e => .error e

/-- `server::build_upstream_clients`: per-route clients, first failure
aborts with the route id in the message. -/
def buildUpstreamClients (env : UrlEnv) : List RouteConfig →
    Except String (List (RStr × ClientModel))
  | [] => .ok []
  | r :: rest =>
      match buildUpstreamClient env r.upstream with
      | .error e =>
          .error ("failed to build upstream client for route `" ++ showR r.id ++ "`: " ++ e)
      | .ok c =>
          match buildUpstreamClients env rest with
          | .ok cs => .ok ((r.id, c) :: cs)
          | .error e => .error e

/-- `observability::normalize_metrics_path`. -/
def normalizeMetricsPath (path : RStr) : RStr :=
  let trimmed := rustTrim path
  if trimmed = rstr "/" then rstr "/" else trimEndSlashes trimmed

/-- `observability::metrics_sub_path`. -/
def metricsSubPath (basePath suffix : RStr) : RStr :=
  if basePath = rstr "/" then '/' :: suffix else basePath ++ '/' :: suffix

/-- `ObservabilityRuntime` (the path/token routing data; metric registries
carry no config-dependent failure and are omitted). -/
structure ObservabilityRuntimeModel where
  metricsOn : Bool
  metricsPath : Option RStr
  metricsUiPath : Option RStr
  metricsSummaryPath : Option RStr
  metricsToken : Option RStr
deriving DecidableEq

/-- `ObservabilityRuntime::from_config`. -/
def observabilityFromConfig (config : Option ObservabilityConfig) : ObservabilityRuntimeModel :=
  match config with
  | none =>
      { metricsOn := false, metricsPath := none, metricsUiPath := none,
        metricsSummaryPath := none, metricsToken := none }
  | some config =>
      if config.metrics.enabled then
        let path := normalizeMetricsPath config.metrics.path
        { metricsOn := true, metricsPath := some path,
          metricsUiPath := some (metricsSubPath path (rstr "ui")),
          metricsSummaryPath := some (metricsSubPath path (rstr "summary")),
          metricsToken := some config.metrics.token }
      else
        { metricsOn := false, metricsPath := none, metricsUiPath := none,
          metricsSummaryPath := none, metricsToken := none }

/-- The state bundle assembled by `server::build_app`. -/
structure AppStateModel where
  upstreamClients : List (RStr × ClientModel)
  rateLimiterPerMinute : Option Nat
  concurrency : Option ConcurrencyControllerModel
  observability : ObservabilityRuntimeModel
deriving DecidableEq

/-- `tokio::sync::Semaphore::MAX_PERMITS` (`usize::MAX >> 3` on the 64-bit
target); `Semaphore::new` panics above it. -/
def semaphoreMaxPermits : Nat := 2 ^ 61 - 1

/-- `ConcurrencyController::new` builds the downstream semaphore eagerly,
and `Semaphore::new` aborts the process when the configured permit count
exceeds `MAX_PERMITS`.  (The per-key upstream semaphores are created lazily
in `acquire_upstream`, not at build time.) -/
def downstreamSemaphoreOk (controller : Option ConcurrencyControllerModel) : Bool :=
  match controller with
  | some cc =>
      match cc.downstreamLimit with
      | some l => l ≤ semaphoreMaxPermits
      | none => true
  | none => true

/-- The route paths `build_app` registers on the axum `Router`, in
registration order: `/healthz` always, then the metrics path, the metrics
UI path and the metrics summary path when present. -/
def registeredRouterPaths (config : AppConfig) : List RStr :=
  rstr "/healthz" ::
    ((observabilityFromConfig config.observability).metricsPath.toList ++
     (observabilityFromConfig config.observability).metricsUiPath.toList ++
     (observabilityFromConfig config.observability).metricsSummaryPath.toList)

/-- How `server::build_app` can fail to produce a runtime state: an
upstream-client build error (the `Err` the function returns), or a process
abort (panic) raised while constructing the downstream semaphore or wiring
the router. -/
inductive BuildAbort
  | clientError (msg : String)
  | semaphorePanic
  | wiringPanic
deriving DecidableEq

/-- `server::build_app`: build the client pool (the only step that returns
`Err`), the optional rate limiter, the optional concurrency controller and
the observability runtime, then wire the router.  `validate` is nowhere
consulted.  Two library panics can abort the build: the downstream
`Semaphore::new` above `MAX_PERMITS`, and axum `Router::route`, which
panics for a path that is not a valid route pattern or that conflicts with
one already registered (e.g. a metrics path normalising to `/healthz`) —
the acceptance test axum applies to the registered path list is library
behaviour abstracted as `wiringOk`.  Both aborts are surfaced as explicit
outcomes, so `.ok` means the build completed. -/
def buildApp (env : UrlEnv) (wiringOk : List RStr → Bool) (config : AppConfig) :
    Except BuildAbort AppStateModel :=
  match buildUpstreamClients env config.routes with
  | .error e => .error (.clientError e)
  | .ok clients =>
      let concurrency := concurrencyControllerNew config
      if ¬ downstreamSemaphoreOk concurrency then .error .semaphorePanic
      else if ¬ wiringOk (registeredRouterPaths config) then .error .wiringPanic
      else
        .ok { upstreamClients := clients,
              rateLimiterPerMinute := config.rateLimit.map (fun rl => rl.perMinute),
              concurrency := concurrency,
              observability := observabilityFromConfig config.observability }

/-! ## Shared auxiliary lemmas -/

theorem byteLen_append (a b : RStr) : byteLen (a ++ b) = byteLen a + byteLen b := by
  simp [byteLen]

theorem byteLen_pos_of_ne_nil (a : RStr) (h : a ≠ []) : 0 < byteLen a := by
  cases a with
  | nil => exact absurd rfl h
  | cons c rest =>
      have := Char.utf8Size_pos c
      simp [byteLen]
      omega

theorem slash_isPrefixOf_iff (s : RStr) :
    (rstr "/").isPrefixOf s = true ↔ ∃ t, s = '/' :: t := by
  constructor
  · intro h
    have := List.isPrefixOf_iff_prefix.mp h
    obtain ⟨t, ht⟩ := this
    exact ⟨t, ht.symm⟩
  · rintro ⟨t, rfl⟩
    exact List.isPrefixOf_iff_prefix.mpr ⟨t, rfl⟩

theorem isPrefixOf_append (p q : RStr) : p.isPrefixOf (p ++ q) = true :=
  List.isPrefixOf_iff_prefix.mpr ⟨q, rfl⟩

/-! ## C7: the `rewrite_path` round-trip laws -/

/-- A route prefix accepted by `AppConfig::validate`: starts with `/` and,
unless it is the root `/` itself, does not end with `/`. -/
def isValidRoutePfx (p : RStr) : Bool :=
  (rstr "/").isPrefixOf p && (if 1 < byteLen p then !endsWithSlash p else true)

/-- C7 (counterexample): the round-trip law fails for the valid root prefix
`/`: `rewrite_path("/" + "/a", "/", true)` is `"//a"`, not `"/a"`, because
`rewrite_path` returns the path unchanged for the root prefix. -/
theorem c7_counterexample_root_pfx :
    isValidRoutePfx (rstr "/") = true ∧
    rewritePath (rstr "/" ++ '/' :: rstr "a") (rstr "/") true = rstr "//a" ∧
    rewritePath (rstr "/" ++ '/' :: rstr "a") (rstr "/") true ≠ '/' :: rstr "a" := by
  refine ⟨by decide, by decide, by decide⟩

/-- C7 (amended): for every valid NON-ROOT route prefix the first
round-trip law holds: `rewrite_path(prefix + "/x", prefix, true) = "/x"`
(any remainder x); for EVERY valid route prefix, including the root,
`rewrite_path(prefix, prefix, true) = "/"`; and for the root prefix
`rewrite_path` returns the path unchanged, so
`rewrite_path("/" + "/x", "/", true) = "//x"`, which is why the first law
fails there. -/
theorem c7_rewrite_path_roundtrip (p x : RStr) (hv : isValidRoutePfx p = true) :
    (p ≠ rstr "/" → rewritePath (p ++ '/' :: x) p true = '/' :: x) ∧
    rewritePath p p true = rstr "/" ∧
    (p = rstr "/" → rewritePath (p ++ '/' :: x) p true = p ++ '/' :: x) := by
  have hp : (rstr "/").isPrefixOf p = true := by
    simp only [isValidRoutePfx, Bool.and_eq_true] at hv
    exact hv.1
  obtain ⟨ptail, hpeq⟩ := (slash_isPrefixOf_iff p).mp hp
  refine ⟨?_, ?_, ?_⟩
  · intro hroot
    have hmatch : pathMatchesPrefix (p ++ '/' :: x) p = true := by
      have hslash : (rstr "/").isPrefixOf (p ++ '/' :: x) = true := by
        rw [slash_isPrefixOf_iff]
        exact ⟨ptail ++ '/' :: x, by rw [hpeq]; simp⟩
      have hlen : byteLen (p ++ '/' :: x) ≠ byteLen p := by
        rw [byteLen_append]
        have : 0 < byteLen ('/' :: x) := byteLen_pos_of_ne_nil _ (by simp)
        omega
      have hdrop : ((p ++ '/' :: x).drop p.length).head? = some '/' := by
        rw [List.drop_left]
        rfl
      simp only [pathMatchesPrefix, hslash, hp, hroot, isPrefixOf_append, hlen, hdrop]
      simp
    have hrest : (p ++ '/' :: x).drop p.length = '/' :: x := List.drop_left p _
    have hnorm : normalizePath ('/' :: x) = '/' :: x := by
      have : (rstr "/").isPrefixOf ('/' :: x) = true := (slash_isPrefixOf_iff _).mpr ⟨x, rfl⟩
      simp [normalizePath, this]
    simp only [rewritePath, hroot, hmatch]
    simp [hrest, hnorm]
  · by_cases hroot : p = rstr "/"
    · subst hroot
      decide
    · have hmatch : pathMatchesPrefix p p = true := by
        simp only [pathMatchesPrefix, hp, hroot]
        simp [List.isPrefixOf_iff_prefix]
      simp [rewritePath, hroot, hmatch]
  · intro hroot
    subst hroot
    have hsplit : rstr "/" ++ '/' :: x = '/' :: '/' :: x := rfl
    have hpre : (rstr "/").isPrefixOf ('/' :: '/' :: x) = true :=
      (slash_isPrefixOf_iff _).mpr ⟨'/' :: x, rfl⟩
    rw [hsplit]
    unfold rewritePath
    rw [if_neg (by simp), if_pos rfl]
    unfold normalizePath
    rw [if_neg (by simp), if_pos hpre]

/-- C7 witness: the amended laws at `prefix = "/openai"`, `x = "v1"`, and at
the root prefix. -/
theorem c7_rewrite_path_roundtrip_witness :
    rewritePath (rstr "/openai" ++ '/' :: rstr "v1") (rstr "/openai") true = '/' :: rstr "v1" ∧
    rewritePath (rstr "/openai") (rstr "/openai") true = rstr "/" ∧
    rewritePath (rstr "/") (rstr "/") true = rstr "/" ∧
    rewritePath (rstr "/" ++ '/' :: rstr "a") (rstr "/") true = rstr "/" ++ '/' :: rstr "a" := by
  have h1 := c7_rewrite_path_roundtrip (rstr "/openai") (rstr "v1") (by decide)
  have h2 := c7_rewrite_path_roundtrip (rstr "/") (rstr "a") (by decide)
  exact ⟨h1.1 (by decide), h1.2.1, h2.2.1, h2.2.2 rfl⟩

/-! ## C2: longest-prefix route matching -/

theorem foldl_max_none_iff (l : List RouteConfig) :
    l.foldl maxByPrefixLenStep none = none ↔ l = [] := by
  constructor
  · intro h
    cases l with
    | nil => rfl
    | cons r rest =>
        exfalso
        have : ∀ (l2 : List RouteConfig) (a : RouteConfig),
            l2.foldl maxByPrefixLenStep (some a) ≠ none := by
          intro l2
          induction l2 with
          | nil => intro a h2; exact Option.noConfusion h2
          | cons x xs ih =>
              intro a h2
              simp only [List.foldl_cons, maxByPrefixLenStep] at h2
              by_cases hc : byteLen a.pfx ≤ byteLen x.pfx
              · exact ih x (by simpa [hc] using h2)
              · exact ih a (by simpa [hc] using h2)
        simp only [List.foldl_cons, maxByPrefixLenStep] at h
        exact this rest r h
  · intro h
    subst h
    rfl

theorem foldl_max_spec (l : List RouteConfig) :
    ∀ acc r, l.foldl maxByPrefixLenStep acc = some r →
    ((acc = some r ∧ ∀ x ∈ l, byteLen x.pfx < byteLen r.pfx) ∨
     (∃ l1 l2, l = l1 ++ r :: l2 ∧ ∀ x ∈ l2, byteLen x.pfx < byteLen r.pfx)) ∧
    (∀ x ∈ l, byteLen x.pfx ≤ byteLen r.pfx) ∧
    (∀ a, acc = some a → byteLen a.pfx ≤ byteLen r.pfx) := by
  induction l with
  | nil =>
      intro acc r h
      simp only [List.foldl_nil] at h
      subst h
      refine ⟨Or.inl ⟨rfl, by simp⟩, by simp, ?_⟩
      intro a ha
      cases ha
      exact le_refl _
  | cons r0 rest ih =>
      intro acc r h
      simp only [List.foldl_cons] at h
      have hstep := ih (maxByPrefixLenStep acc r0) r h
      obtain ⟨hdisj, hbound, haccb⟩ := hstep
      have hr0le : byteLen r0.pfx ≤ byteLen r.pfx := by
        cases acc with
        | none => exact haccb r0 rfl
        | some a =>
            by_cases hc : byteLen a.pfx ≤ byteLen r0.pfx
            · exact haccb r0 (by simp [maxByPrefixLenStep, hc])
            · have := haccb a (by simp [maxByPrefixLenStep, hc])
              omega
      refine ⟨?_, ?_, ?_⟩
      · rcases hdisj with ⟨hacc2, hlt⟩ | ⟨l1, l2, hsplit, hlt⟩
        · cases acc with
          | none =>
              have : r0 = r := by
                simp only [maxByPrefixLenStep] at hacc2
                exact Option.some.inj hacc2
              subst this
              exact Or.inr ⟨[], rest, by simp, hlt⟩
          | some a =>
              by_cases hc : byteLen a.pfx ≤ byteLen r0.pfx
              · have : r0 = r := by
                  simp only [maxByPrefixLenStep, hc, if_pos] at hacc2
                  exact Option.some.inj hacc2
                subst this
                exact Or.inr ⟨[], rest, by simp, hlt⟩
              · have : a = r := by
                  simp only [maxByPrefixLenStep, hc, if_neg] at hacc2
                  simpa using hacc2
                subst this
                refine Or.inl ⟨rfl, ?_⟩
                intro x hx
                rcases List.mem_cons.mp hx with rfl | hx
                · omega
                · exact hlt x hx
        · exact Or.inr ⟨r0 :: l1, l2, by simp [hsplit], hlt⟩
      · intro x hx
        rcases List.mem_cons.mp hx with rfl | hx
        · exact hr0le
        · exact hbound x hx
      · intro a ha
        subst ha
        by_cases hc : byteLen a.pfx ≤ byteLen r0.pfx
        · exact le_trans hc hr0le
        · exact haccb a (by simp [maxByPrefixLenStep, hc])

theorem openai2_never_matches_openai (rest : RStr) :
    pathMatchesPrefix (rstr "/openai2" ++ rest) (rstr "/openai") = false := by
  have hsplit : rstr "/openai2" ++ rest = rstr "/openai" ++ ('2' :: rest) := by
    have : rstr "/openai2" = rstr "/openai" ++ ['2'] := by decide
    rw [this, List.append_assoc]
    rfl
  rw [hsplit]
  have hslash : (rstr "/").isPrefixOf (rstr "/openai" ++ ('2' :: rest)) = true :=
    (slash_isPrefixOf_iff _).mpr ⟨rstr "openai" ++ ('2' :: rest), rfl⟩
  have hlen : byteLen (rstr "/openai" ++ ('2' :: rest)) ≠ byteLen (rstr "/openai") := by
    rw [byteLen_append]
    have h1 : byteLen (rstr "/openai") = 7 := by decide
    have h2 : byteLen ('2' :: rest) = 1 + byteLen rest := by
      simp [byteLen]
      decide
    omega
  have hdrop : ((rstr "/openai" ++ ('2' :: rest)).drop (rstr "/openai").length).head? =
      some '2' := by
    rw [List.drop_left]
    rfl
  simp only [pathMatchesPrefix, hslash, isPrefixOf_append, hlen, hdrop]
  simp
  intro h
  decide

/-- A minimal upstream configuration used by concrete instances. -/
def sampleUpstream : UpstreamConfig :=
  { baseUrl := rstr "https://api.openai.com", stripPfx := true,
    connectTimeoutMs := 10000, requestTimeoutMs := 60000,
    injectHeaders := [], removeHeaders := [], forwardXff := false,
    proxy := none, upstreamKeyMaxInflight := none }

/-- C2 (amended): `match_route` returns a route iff some route prefix
matches; the returned route matches, its prefix has maximal byte length
among all matching routes, and among routes with that maximal prefix length
the LAST one in input order is returned (every matching route strictly after
the result has a strictly shorter prefix); and a path under `/openai2`
never matches the prefix `/openai`. -/
theorem c2_match_route_longest_last_wins (path : RStr) (routes : List RouteConfig) :
    (matchRoute path routes = none ↔
      routes.filter (fun r => pathMatchesPrefix path r.pfx) = []) ∧
    (∀ r, matchRoute path routes = some r →
      pathMatchesPrefix path r.pfx = true ∧ r ∈ routes ∧
      (∀ x ∈ routes, pathMatchesPrefix path x.pfx = true →
        byteLen x.pfx ≤ byteLen r.pfx) ∧
      ∃ l1 l2, routes.filter (fun r => pathMatchesPrefix path r.pfx) = l1 ++ r :: l2 ∧
        ∀ x ∈ l2, byteLen x.pfx < byteLen r.pfx) ∧
    (∀ rest, pathMatchesPrefix (rstr "/openai2" ++ rest) (rstr "/openai") = false) := by
  refine ⟨foldl_max_none_iff _, ?_, openai2_never_matches_openai⟩
  intro r h
  have hspec := foldl_max_spec
    (routes.filter (fun r => pathMatchesPrefix path r.pfx)) none r h
  obtain ⟨hdisj, hbound, -⟩ := hspec
  have hdecomp : ∃ l1 l2,
      routes.filter (fun r => pathMatchesPrefix path r.pfx) = l1 ++ r :: l2 ∧
      ∀ x ∈ l2, byteLen x.pfx < byteLen r.pfx := by
    rcases hdisj with ⟨habs, -⟩ | hd
    · exact Option.noConfusion habs
    · exact hd
  obtain ⟨l1, l2, hsplit, hlt⟩ := hdecomp
  have hmem : r ∈ routes.filter (fun r => pathMatchesPrefix path r.pfx) := by
    rw [hsplit]
    simp
  have hmem2 := List.mem_filter.mp hmem
  refine ⟨hmem2.2, hmem2.1, ?_, l1, l2, hsplit, hlt⟩
  intro x hx hmatch
  exact hbound x (List.mem_filter.mpr ⟨hx, hmatch⟩)

/-- C2 witness: the amended characterisation at a concrete nested route
table (`/openai` and `/openai/v1` both match `/openai/v1/models`; the longer
one wins). -/
theorem c2_match_route_longest_last_wins_witness :
    matchRoute (rstr "/openai/v1/models")
      [{ id := rstr "root", pfx := rstr "/openai", upstream := sampleUpstream },
       { id := rstr "nested", pfx := rstr "/openai/v1", upstream := sampleUpstream }] =
      some { id := rstr "nested", pfx := rstr "/openai/v1", upstream := sampleUpstream } ∧
    pathMatchesPrefix (rstr "/openai/v1/models") (rstr "/openai/v1") = true ∧
    pathMatchesPrefix (rstr "/openai2" ++ rstr "/v1/models") (rstr "/openai") = false := by
  refine ⟨by decide, ?_, ?_⟩
  · have := (c2_match_route_longest_last_wins (rstr "/openai/v1/models")
      [{ id := rstr "root", pfx := rstr "/openai", upstream := sampleUpstream },
       { id := rstr "nested", pfx := rstr "/openai/v1", upstream := sampleUpstream }]).2.1
      { id := rstr "nested", pfx := rstr "/openai/v1", upstream := sampleUpstream }
      (by decide)
    exact this.1
  · exact (c2_match_route_longest_last_wins (rstr "/openai2/v1/models") []).2.2
      (rstr "/v1/models")

/-- C2 (counterexample): with two routes of EQUAL matching prefix `/a`,
`match_route` returns the LAST one, not the first: `Iterator::max_by_key`
keeps the last maximal element, so input order breaks ties in favour of the
later route. -/
theorem c2_counterexample_tie_last_not_first :
    matchRoute (rstr "/a")
      [{ id := rstr "r1", pfx := rstr "/a", upstream := sampleUpstream },
       { id := rstr "r2", pfx := rstr "/a", upstream := sampleUpstream }] =
      some { id := rstr "r2", pfx := rstr "/a", upstream := sampleUpstream } ∧
    matchRoute (rstr "/a")
      [{ id := rstr "r1", pfx := rstr "/a", upstream := sampleUpstream },
       { id := rstr "r2", pfx := rstr "/a", upstream := sampleUpstream }] ≠
      some { id := rstr "r1", pfx := rstr "/a", upstream := sampleUpstream } ∧
    pathMatchesPrefix (rstr "/a") (rstr "/a") = true := by
  refine ⟨by decide, by decide, by decide⟩

/-! ## C5 and C10: the fixed-window rate limiter -/

theorem countersGet_ensure_self (cs : List (RStr × Nat)) (k : RStr) :
    countersGet (countersEnsure cs k) k = some ((countersGet cs k).getD 0) := by
  unfold countersEnsure
  cases hx : cs.find? (fun e => e.1 = k) with
  | some e =>
      have hk : e.1 = k := by simpa using List.find?_some hx
      simp [countersGet, hx]
  | none =>
      simp only [hx, Option.isSome_none, Bool.false_eq_true, if_false]
      unfold countersGet
      rw [List.find?_append, hx]
      simp [List.find?]

theorem countersGet_ensure_other (cs : List (RStr × Nat)) (k k2 : RStr) (h : k2 ≠ k) :
    countersGet (countersEnsure cs k) k2 = countersGet cs k2 := by
  unfold countersEnsure
  cases hx : cs.find? (fun e => e.1 = k) with
  | some e => simp
  | none =>
      simp only [hx, Option.isSome_none, Bool.false_eq_true, if_false]
      unfold countersGet
      rw [List.find?_append]
      have : List.find? (fun e => e.1 = k2) [(k, 0)] = none := by
        rw [List.find?_cons_of_neg _
          (by simp only [decide_eq_true_eq]; exact fun hh : k = k2 => h hh.symm)]
        rfl
      rw [this]
      cases hy : cs.find? (fun e => e.1 = k2) <;> simp

theorem countersGet_set_self (cs : List (RStr × Nat)) (k : RStr) (v : Nat) :
    countersGet (countersSet cs k v) k = (countersGet cs k).map (fun _ => v) := by
  induction cs with
  | nil => rfl
  | cons e rest ih =>
      by_cases h : e.1 = k
      · simp [countersSet, countersGet, h]
      · unfold countersSet countersGet at ih ⊢
        simp only [List.map_cons, if_neg h]
        rw [List.find?_cons_of_neg _ (by simpa using h),
            List.find?_cons_of_neg _ (by simpa using h)]
        exact ih

theorem countersGet_set_other (cs : List (RStr × Nat)) (k k2 : RStr) (v : Nat) (h : k2 ≠ k) :
    countersGet (countersSet cs k v) k2 = countersGet cs k2 := by
  induction cs with
  | nil => rfl
  | cons e rest ih =>
      unfold countersSet countersGet at ih ⊢
      by_cases he : e.1 = k
      · have hne : ¬ e.1 = k2 := by rw [he]; exact fun hh => h hh.symm
        simp only [List.map_cons, if_pos he]
        rw [List.find?_cons_of_neg _ (by simpa using hne),
            List.find?_cons_of_neg _ (by simpa using hne)]
        exact ih
      · simp only [List.map_cons, if_neg he]
        by_cases h2 : e.1 = k2
        · rw [List.find?_cons_of_pos _ (by simpa using h2),
              List.find?_cons_of_pos _ (by simpa using h2)]
        · rw [List.find?_cons_of_neg _ (by simpa using h2),
              List.find?_cons_of_neg _ (by simpa using h2)]
          exact ih

theorem countersEnsure_of_present (cs : List (RStr × Nat)) (k : RStr)
    (h : (countersGet cs k).isSome) : countersEnsure cs k = cs := by
  unfold countersEnsure
  unfold countersGet at h
  cases hx : cs.find? (fun e => e.1 = k) with
  | some e => simp [hx]
  | none => rw [hx] at h; simp at h

/-- The counter key used by `RateLimiter::check`: `"{route_id}\n{token}"`. -/
def rlKey (routeId token : RStr) : RStr := routeId ++ '\n' :: token

/-- The counter map the current check operates on: the stored map when the
minute bucket is unchanged, the empty map after a window rotation. -/
def rlBase (st : RateLimiterState) (epochSeconds : Nat) : List (RStr × Nat) :=
  if st.minuteBucket = epochSeconds / 60 then st.counters else []

/-- C5: the rate limiter is a fixed window over `floor(now / 60)` keyed by
`route_id + "\n" + token`: a check in a new minute starts from an empty
counter map with the bucket number reset; a check rejects exactly when the
key's current count has reached `per_minute`, with `retry_after_secs` equal
to the seconds remaining until the next minute boundary (always in 1..60),
and otherwise increments the key's counter (touching no other key) and
allows. -/
theorem c5_rate_limiter_fixed_window (perMinute : Nat) (st : RateLimiterState)
    (token routeId : RStr) (epochSeconds : Nat) :
    (checkAtEpochSeconds perMinute st token routeId epochSeconds).2.minuteBucket =
      epochSeconds / 60 ∧
    (perMinute ≤ (countersGet (rlBase st epochSeconds) (rlKey routeId token)).getD 0 →
      (checkAtEpochSeconds perMinute st token routeId epochSeconds).1 =
        .rejected (retryAfterSeconds epochSeconds) ∧
      (checkAtEpochSeconds perMinute st token routeId epochSeconds).2.counters =
        countersEnsure (rlBase st epochSeconds) (rlKey routeId token)) ∧
    ((countersGet (rlBase st epochSeconds) (rlKey routeId token)).getD 0 < perMinute →
      (checkAtEpochSeconds perMinute st token routeId epochSeconds).1 = .allowed ∧
      countersGet (checkAtEpochSeconds perMinute st token routeId epochSeconds).2.counters
          (rlKey routeId token) =
        some ((countersGet (rlBase st epochSeconds) (rlKey routeId token)).getD 0 + 1) ∧
      ∀ k2, k2 ≠ rlKey routeId token →
        countersGet (checkAtEpochSeconds perMinute st token routeId epochSeconds).2.counters k2 =
        countersGet (rlBase st epochSeconds) k2) ∧
    retryAfterSeconds epochSeconds = (epochSeconds / 60 + 1) * 60 - epochSeconds ∧
    1 ≤ retryAfterSeconds epochSeconds ∧ retryAfterSeconds epochSeconds ≤ 60 := by
  have hretry : retryAfterSeconds epochSeconds = 60 - epochSeconds % 60 := by
    unfold retryAfterSeconds
    have hmod : epochSeconds % 60 < 60 := Nat.mod_lt _ (by omega)
    have : 60 - epochSeconds % 60 ≠ 0 := by omega
    simp [this]
  have hbase : (if st.minuteBucket ≠ epochSeconds / 60 then
      ({ minuteBucket := epochSeconds / 60, counters := [] } : RateLimiterState)
      else st).counters = rlBase st epochSeconds := by
    unfold rlBase
    by_cases hb : st.minuteBucket = epochSeconds / 60 <;> simp [hb]
  have hbucket : (if st.minuteBucket ≠ epochSeconds / 60 then
      ({ minuteBucket := epochSeconds / 60, counters := [] } : RateLimiterState)
      else st).minuteBucket = epochSeconds / 60 := by
    by_cases hb : st.minuteBucket = epochSeconds / 60 <;> simp [hb]
  have hmod : epochSeconds % 60 < 60 := Nat.mod_lt _ (by omega)
  refine ⟨?_, ?_, ?_, by omega, by omega, by omega⟩
  · unfold checkAtEpochSeconds
    by_cases hc : perMinute ≤
        (countersGet (countersEnsure (rlBase st epochSeconds) (rlKey routeId token))
          (rlKey routeId token)).getD 0
    all_goals
      simp only [hbase, hbucket, rlKey] at *
      split <;> simp_all
  · intro hc
    have hc2 : perMinute ≤ (countersGet (countersEnsure (rlBase st epochSeconds)
        (rlKey routeId token)) (rlKey routeId token)).getD 0 := by
      rw [countersGet_ensure_self]
      simpa using hc
    unfold checkAtEpochSeconds
    simp only [hbase, hbucket, rlKey] at *
    constructor
    · split
      · rfl
      · omega
    · split
      · rfl
      · omega
  · intro hc
    have hc2 : ¬ perMinute ≤ (countersGet (countersEnsure (rlBase st epochSeconds)
        (rlKey routeId token)) (rlKey routeId token)).getD 0 := by
      rw [countersGet_ensure_self]
      simpa using hc
    unfold checkAtEpochSeconds
    simp only [hbase, hbucket, rlKey] at *
    refine ⟨?_, ?_, ?_⟩
    · split
      · omega
      · rfl
    · have hthis : countersGet (countersSet (countersEnsure (rlBase st epochSeconds)
          (routeId ++ '\n' :: token)) (routeId ++ '\n' :: token)
          (((countersGet (countersEnsure (rlBase st epochSeconds) (routeId ++ '\n' :: token))
            (routeId ++ '\n' :: token)).getD 0) + 1)) (routeId ++ '\n' :: token) =
          some ((countersGet (rlBase st epochSeconds) (routeId ++ '\n' :: token)).getD 0 + 1) := by
        rw [countersGet_set_self, countersGet_ensure_self]
        simp
      split
      · omega
      · simpa using hthis
    · intro k2 hk2
      have hthis : countersGet (countersSet (countersEnsure (rlBase st epochSeconds)
          (routeId ++ '\n' :: token)) (routeId ++ '\n' :: token)
          (((countersGet (countersEnsure (rlBase st epochSeconds) (routeId ++ '\n' :: token))
            (routeId ++ '\n' :: token)).getD 0) + 1)) k2 =
          countersGet (rlBase st epochSeconds) k2 := by
        rw [countersGet_set_other _ _ _ _ hk2, countersGet_ensure_other _ _ _ hk2]
      split
      · omega
      · simpa using hthis

/-- C5 witness: at epoch 1700000040 (a minute boundary) a fresh counter
allows the request and `Retry-After` for a rejection would be 60. -/
theorem c5_rate_limiter_fixed_window_witness :
    (checkAtEpochSeconds 2 { minuteBucket := 28333334, counters := [] }
      (rstr "gw_token") (rstr "openai") 1700000040).1 = .allowed ∧
    retryAfterSeconds 1700000040 = 60 ∧
    (checkAtEpochSeconds 2 { minuteBucket := 28333334, counters := [] }
      (rstr "gw_token") (rstr "openai") 1700000040).2.minuteBucket = 28333334 := by
  have h := c5_rate_limiter_fixed_window 2 { minuteBucket := 28333334, counters := [] }
    (rstr "gw_token") (rstr "openai") 1700000040
  exact ⟨(h.2.2.1 (by decide)).1, by decide, h.1⟩

/-- C10: a rejected check leaves the limiter state unchanged apart from the
idempotent creation of the key's zero entry: in the same minute, when the
key's count has reached `per_minute`, the decision is `Rejected`, the bucket
number is untouched, no counter value changes (a missing key is materialised
at 0), and running the same check again from the resulting state yields the
same rejection and the same state. -/
theorem c10_rejected_check_is_readonly (perMinute : Nat) (st : RateLimiterState)
    (token routeId : RStr) (epochSeconds : Nat)
    (hb : st.minuteBucket = epochSeconds / 60)
    (hc : perMinute ≤ (countersGet st.counters (rlKey routeId token)).getD 0) :
    (checkAtEpochSeconds perMinute st token routeId epochSeconds).1 =
      .rejected (retryAfterSeconds epochSeconds) ∧
    (checkAtEpochSeconds perMinute st token routeId epochSeconds).2.minuteBucket =
      st.minuteBucket ∧
    (checkAtEpochSeconds perMinute st token routeId epochSeconds).2.counters =
      countersEnsure st.counters (rlKey routeId token) ∧
    (∀ k2, countersGet
        (checkAtEpochSeconds perMinute st token routeId epochSeconds).2.counters k2 =
      if k2 = rlKey routeId token ∧ countersGet st.counters k2 = none then some 0
      else countersGet st.counters k2) ∧
    checkAtEpochSeconds perMinute
        (checkAtEpochSeconds perMinute st token routeId epochSeconds).2
        token routeId epochSeconds =
      checkAtEpochSeconds perMinute st token routeId epochSeconds := by
  have hbase : rlBase st epochSeconds = st.counters := by
    unfold rlBase
    simp [hb]
  have h := c5_rate_limiter_fixed_window perMinute st token routeId epochSeconds
  rw [hbase] at h
  obtain ⟨hbucket, hrej, -, -⟩ := h
  obtain ⟨hdec, hcounters⟩ := hrej hc
  refine ⟨hdec, by rw [hbucket, hb], hcounters, ?_, ?_⟩
  · intro k2
    by_cases hk : k2 = rlKey routeId token
    · subst hk
      rw [hcounters, countersGet_ensure_self]
      cases hx : countersGet st.counters (rlKey routeId token) with
      | none => simp [hx]
      | some v => simp [hx]
    · rw [hcounters, countersGet_ensure_other _ _ _ hk]
      simp [hk]
  · -- the second check starts from the ensured state: same bucket, key
    -- present with the same (≥ perMinute) count, so it rejects again and
    -- `countersEnsure` is the identity.
    have hpresent : (countersGet (countersEnsure st.counters (rlKey routeId token))
        (rlKey routeId token)).isSome := by
      rw [countersGet_ensure_self]
      simp
    have hidem : countersEnsure (countersEnsure st.counters (rlKey routeId token))
        (rlKey routeId token) = countersEnsure st.counters (rlKey routeId token) :=
      countersEnsure_of_present _ _ hpresent
    have hcount2 : (countersGet (countersEnsure st.counters (rlKey routeId token))
        (rlKey routeId token)).getD 0 =
        (countersGet st.counters (rlKey routeId token)).getD 0 := by
      rw [countersGet_ensure_self]
      simp
    have h2 := c5_rate_limiter_fixed_window perMinute
      (checkAtEpochSeconds perMinute st token routeId epochSeconds).2
      token routeId epochSeconds
    have hbase2 : rlBase (checkAtEpochSeconds perMinute st token routeId epochSeconds).2
        epochSeconds = countersEnsure st.counters (rlKey routeId token) := by
      unfold rlBase
      rw [hbucket]
      simp [hcounters]
    rw [hbase2] at h2
    obtain ⟨hbucket2, hrej2, -, -⟩ := h2
    obtain ⟨hdec2, hcounters2⟩ := hrej2 (by rw [hcount2]; exact hc)
    have hstate : (checkAtEpochSeconds perMinute
        (checkAtEpochSeconds perMinute st token routeId epochSeconds).2
        token routeId epochSeconds).2 =
        (checkAtEpochSeconds perMinute st token routeId epochSeconds).2 := by
      cases hfin : (checkAtEpochSeconds perMinute
          (checkAtEpochSeconds perMinute st token routeId epochSeconds).2
          token routeId epochSeconds).2 with
      | mk mb cs =>
          cases hfin0 : (checkAtEpochSeconds perMinute st token routeId epochSeconds).2 with
          | mk mb0 cs0 =>
              have e1 : mb = mb0 := by
                have := hbucket2
                rw [hfin] at this
                have h0 := hbucket
                rw [hfin0] at h0
                simp at this h0
                omega
              have e2 : cs = cs0 := by
                have := hcounters2
                rw [hfin, hidem] at this
                have h0 := hcounters
                rw [hfin0] at h0
                simp at this h0
                rw [this, h0]
              rw [e1, e2]
    have hdecfin : (checkAtEpochSeconds perMinute
        (checkAtEpochSeconds perMinute st token routeId epochSeconds).2
        token routeId epochSeconds).1 =
        (checkAtEpochSeconds perMinute st token routeId epochSeconds).1 := by
      rw [hdec2, hdec]
    exact Prod.ext hdecfin hstate

/-- C10 witness: a key already at its limit (per_minute = 1, count 1) is
rejected and the state is exactly the prior state. -/
theorem c10_rejected_check_is_readonly_witness :
    (checkAtEpochSeconds 1
      { minuteBucket := 28333334, counters := [(rlKey (rstr "openai") (rstr "gw"), 1)] }
      (rstr "gw") (rstr "openai") 1700000040).1 = .rejected 60 ∧
    (checkAtEpochSeconds 1
      { minuteBucket := 28333334, counters := [(rlKey (rstr "openai") (rstr "gw"), 1)] }
      (rstr "gw") (rstr "openai") 1700000040).2.counters =
      [(rlKey (rstr "openai") (rstr "gw"), 1)] := by
  have h := c10_rejected_check_is_readonly 1
    { minuteBucket := 28333334, counters := [(rlKey (rstr "openai") (rstr "gw"), 1)] }
    (rstr "gw") (rstr "openai") 1700000040 (by decide) (by decide)
  refine ⟨?_, ?_⟩
  · rw [h.1]
    decide
  · rw [h.2.2.1]
    decide

/-! ## More auxiliary lemmas: chars, lowering, header-map operations -/

theorem charOfNat_toNat (n : Nat) (h : n < 0xD800) : (Char.ofNat n).toNat = n := by
  have hv : n.isValidChar := Or.inl h
  unfold Char.ofNat
  simp only [hv, dite_true]
  simp [Char.ofNatAux, Char.toNat, UInt32.toNat, BitVec.ofNatLt]

theorem asciiLowerChar_of_upper (c : Char) (h : 65 ≤ c.toNat ∧ c.toNat ≤ 90) :
    (asciiLowerChar c).toNat = c.toNat + 32 := by
  simp only [asciiLowerChar, if_pos h]
  exact charOfNat_toNat _ (by omega)

theorem asciiLowerChar_of_not_upper (c : Char) (h : ¬ (65 ≤ c.toNat ∧ c.toNat ≤ 90)) :
    asciiLowerChar c = c := by
  simp [asciiLowerChar, h]

theorem asciiLowerChar_idem (c : Char) :
    asciiLowerChar (asciiLowerChar c) = asciiLowerChar c := by
  by_cases h : 65 ≤ c.toNat ∧ c.toNat ≤ 90
  · have h2 := asciiLowerChar_of_upper c h
    exact asciiLowerChar_of_not_upper _ (by omega)
  · rw [asciiLowerChar_of_not_upper c h, asciiLowerChar_of_not_upper c h]

theorem asciiLower_idem (s : RStr) : asciiLower (asciiLower s) = asciiLower s := by
  unfold asciiLower
  rw [List.map_map]
  exact List.map_congr_left (fun c _ => asciiLowerChar_idem c)

theorem find?_filter_eq {α : Type} (l : List α) (p q : α → Bool)
    (h : ∀ e, p e = true → q e = true) : (l.filter q).find? p = l.find? p := by
  induction l with
  | nil => rfl
  | cons e rest ih =>
      by_cases hq : q e = true
      · rw [List.filter_cons_of_pos hq]
        by_cases hp : p e = true
        · rw [List.find?_cons_of_pos _ hp, List.find?_cons_of_pos _ hp]
        · rw [List.find?_cons_of_neg _ hp, List.find?_cons_of_neg _ hp]
          exact ih
      · rw [List.filter_cons_of_neg (by simpa using hq)]
        have hp : ¬ p e = true := fun hp => hq (h e hp)
        rw [List.find?_cons_of_neg _ hp]
        exact ih

theorem find?_filter_none {α : Type} (l : List α) (p q : α → Bool)
    (h : ∀ e, q e = true → p e = false) : (l.filter q).find? p = none := by
  rw [List.find?_eq_none]
  intro e he
  have hq := (List.mem_filter.mp he).2
  intro hp
  rw [h e hq] at hp
  exact Bool.noConfusion hp

theorem hmGet_insert (m : HMap) (k v n : RStr) :
    hmGet (hmInsert m k v) n =
      if asciiLower n = asciiLower k then some v else hmGet m n := by
  unfold hmInsert hmGet hmRemove
  rw [List.find?_append]
  by_cases h : asciiLower n = asciiLower k
  · have hnone : (m.filter (fun e => ¬ asciiLower e.1 = asciiLower k)).find?
        (fun e => asciiLower e.1 = asciiLower n) = none := by
      apply find?_filter_none
      intro e hq
      simp only [decide_eq_true_eq, decide_not] at hq
      simp only [decide_eq_false_iff_not]
      rw [h]
      simpa using hq
    rw [hnone]
    simp [List.find?, h]
  · have heq : (m.filter (fun e => ¬ asciiLower e.1 = asciiLower k)).find?
        (fun e => asciiLower e.1 = asciiLower n) =
        m.find? (fun e => asciiLower e.1 = asciiLower n) := by
      apply find?_filter_eq
      intro e hp
      simp only [decide_eq_true_eq] at hp
      simp only [decide_eq_true_eq, decide_not]
      rw [hp]
      simpa using h
    rw [heq]
    have hlast : List.find? (fun e => asciiLower e.1 = asciiLower n) [(k, v)] = none := by
      rw [List.find?_cons_of_neg _
        (by simp only [decide_eq_true_eq]; exact fun hc => h hc.symm)]
      rfl
    rw [hlast]
    cases m.find? (fun e => asciiLower e.1 = asciiLower n) <;> simp [h]

theorem hmGet_remove (m : HMap) (k n : RStr) :
    hmGet (hmRemove m k) n =
      if asciiLower n = asciiLower k then none else hmGet m n := by
  unfold hmGet hmRemove
  by_cases h : asciiLower n = asciiLower k
  · have hnone : (m.filter (fun e => ¬ asciiLower e.1 = asciiLower k)).find?
        (fun e => asciiLower e.1 = asciiLower n) = none := by
      apply find?_filter_none
      intro e hq
      simp only [decide_eq_true_eq, decide_not] at hq
      simp only [decide_eq_false_iff_not]
      rw [h]
      simpa using hq
    rw [hnone]
    simp [h]
  · have heq : (m.filter (fun e => ¬ asciiLower e.1 = asciiLower k)).find?
        (fun e => asciiLower e.1 = asciiLower n) =
        m.find? (fun e => asciiLower e.1 = asciiLower n) := by
      apply find?_filter_eq
      intro e hp
      simp only [decide_eq_true_eq] at hp
      simp only [decide_eq_true_eq, decide_not]
      rw [hp]
      simpa using h
    rw [heq]
    simp [h]

/-! ## C9: request-id extraction and propagation -/

theorem rustTrim_eq_self_of_no_ws (s : RStr)
    (h : ∀ c ∈ s, rustIsWhitespace c = false) : rustTrim s = s := by
  have h1 : rustTrimStart s = s := by
    cases s with
    | nil => rfl
    | cons c rest =>
        unfold rustTrimStart
        rw [List.dropWhile_cons, h c (by simp)]
        simp
  unfold rustTrim
  rw [h1]
  unfold rustTrimEnd
  cases hrev : s.reverse with
  | nil =>
      have hs : s = [] := List.reverse_eq_nil_iff.mp hrev
      subst hs
      rfl
  | cons c rest =>
      have hc : c ∈ s := by
        have : c ∈ s.reverse := by rw [hrev]; simp
        simpa using this
      rw [List.dropWhile_cons, h c hc]
      simp only [Bool.false_eq_true, if_false]
      rw [← hrev, List.reverse_reverse]

theorem valid_request_id_chars (v : RStr) (hv : isValidRequestId v = true) :
    ∀ c ∈ v, (48 ≤ c.toNat ∧ c.toNat ≤ 57) ∨ (65 ≤ c.toNat ∧ c.toNat ≤ 90) ∨
      (97 ≤ c.toNat ∧ c.toNat ≤ 122) ∨ c.toNat = 45 ∨ c.toNat = 95 ∨ c.toNat = 46 := by
  intro c hc
  unfold isValidRequestId at hv
  by_cases hg : v.isEmpty ∨ 128 < byteLen v
  · rw [if_pos hg] at hv
    exact Bool.noConfusion hv
  · rw [if_neg hg] at hv
    have := List.all_eq_true.mp hv c hc
    simp only [decide_eq_true_eq, List.mem_cons, List.not_mem_nil] at this
    rcases this with h | h | h | h
    · exact Or.inl h
    · exact Or.inr (Or.inl h)
    · exact Or.inr (Or.inr (Or.inl h))
    · rcases h with h | h | h
      · subst h; right; right; right; left; rfl
      · subst h; right; right; right; right; left; rfl
      · rcases h with h | h
        · subst h; right; right; right; right; right; rfl
        · exact absurd h (by simp)

theorem valid_request_id_no_ws (v : RStr) (hv : isValidRequestId v = true) :
    ∀ c ∈ v, rustIsWhitespace c = false := by
  intro c hc
  have := valid_request_id_chars v hv c hc
  unfold rustIsWhitespace
  simp only [List.mem_cons, List.not_mem_nil, or_false, decide_eq_false_iff_not]
  omega

theorem valid_request_id_trim (v : RStr) (hv : isValidRequestId v = true) :
    rustTrim v = v :=
  rustTrim_eq_self_of_no_ws v (valid_request_id_no_ws v hv)

theorem valid_request_id_header_value (v : RStr) (hv : isValidRequestId v = true) :
    isValidHeaderValue v = true := by
  unfold isValidHeaderValue
  rw [List.all_eq_true]
  intro c hc
  have := valid_request_id_chars v hv c hc
  unfold isValidHeaderValueChar
  simp only [decide_eq_true_eq]
  omega

/-- C9 (counterexample): the header value ` abc ` (padded with spaces) does
NOT satisfy the validity rule, yet no fresh UUID is generated: the gateway
trims the value first and keeps the trimmed `abc`.  Hence "for any other
value a fresh time-ordered UUID is generated instead" fails as stated. -/
theorem c9_counterexample_trimmed_value_kept :
    isValidRequestId (rstr " abc ") = false ∧
    extractOrGenerateRequestId [(rstr "x-request-id", rstr " abc ")]
      (rstr "0192c7a0-0000-7000-8000-000000000000") = rstr "abc" ∧
    extractOrGenerateRequestId [(rstr "x-request-id", rstr " abc ")]
      (rstr "0192c7a0-0000-7000-8000-000000000000") ≠
      rstr "0192c7a0-0000-7000-8000-000000000000" ∧
    isValidRequestId (rstr "0192c7a0-0000-7000-8000-000000000000") = true := by
  refine ⟨by decide, by decide, by decide, by decide⟩

/-- C9 (amended): the readable `X-Request-Id` value is first TRIMMED; the
trimmed value is kept iff it is 1..128 bytes of ASCII alphanumerics or
`-`/`_`/`.`; an absent or unreadable header, or an invalid trimmed value,
yields the fresh time-ordered UUID instead.  Consequently (for any fresh
UUID, which always satisfies the validity rule) the chosen id — which the
gateway places on the downstream response — equals the raw inbound value iff
that raw value satisfies the validity rule. -/
theorem c9_request_id_trimmed_keep_rule (headers respHeaders : HMap) (freshUuid : RStr)
    (hfresh : isValidRequestId freshUuid = true) :
    (∀ v, (hmGet headers requestIdHeader).bind headerValueToStr = some v →
      (extractOrGenerateRequestId headers freshUuid =
        (if isValidRequestId (rustTrim v) then rustTrim v else freshUuid)) ∧
      (extractOrGenerateRequestId headers freshUuid = v ↔ isValidRequestId v = true)) ∧
    ((hmGet headers requestIdHeader).bind headerValueToStr = none →
      extractOrGenerateRequestId headers freshUuid = freshUuid) ∧
    hmGet (insertRequestIdHeader respHeaders (extractOrGenerateRequestId headers freshUuid))
        requestIdHeader =
      some (extractOrGenerateRequestId headers freshUuid) := by
  have hresult : ∀ v, (hmGet headers requestIdHeader).bind headerValueToStr = some v →
      extractOrGenerateRequestId headers freshUuid =
        (if isValidRequestId (rustTrim v) then rustTrim v else freshUuid) := by
    intro v hv
    unfold extractOrGenerateRequestId
    rw [hv]
    rfl
  have hvalid : isValidRequestId (extractOrGenerateRequestId headers freshUuid) = true := by
    unfold extractOrGenerateRequestId
    cases hv : (hmGet headers requestIdHeader).bind headerValueToStr with
    | none => exact hfresh
    | some v =>
        show isValidRequestId
          (if isValidRequestId (rustTrim v) then rustTrim v else freshUuid) = true
        by_cases hval : isValidRequestId (rustTrim v) = true
        · rw [if_pos hval]; exact hval
        · rw [if_neg hval]; exact hfresh
  refine ⟨?_, ?_, ?_⟩
  · intro v hv
    refine ⟨hresult v hv, ?_⟩
    constructor
    · intro heq
      rw [hresult v hv] at heq
      by_cases hval : isValidRequestId (rustTrim v) = true
      · rw [if_pos hval] at heq
        rw [heq] at hval
        exact hval
      · rw [if_neg hval] at heq
        rw [← heq]
        exact hfresh
    · intro hvv
      rw [hresult v hv, valid_request_id_trim v hvv, if_pos hvv]
  · intro hv
    unfold extractOrGenerateRequestId
    rw [hv]
    rfl
  · unfold insertRequestIdHeader
    rw [if_pos (valid_request_id_header_value _ hvalid), hmGet_insert]
    simp

/-- C9 witness: a valid inbound id `req-1` is kept verbatim and appears on
the response; after trimming, ` abc ` is kept as `abc`. -/
theorem c9_request_id_trimmed_keep_rule_witness :
    extractOrGenerateRequestId [(rstr "x-request-id", rstr "req-1")]
      (rstr "0192c7a0-0000-7000-8000-000000000000") = rstr "req-1" ∧
    hmGet (insertRequestIdHeader []
        (extractOrGenerateRequestId [(rstr "x-request-id", rstr "req-1")]
          (rstr "0192c7a0-0000-7000-8000-000000000000")))
      requestIdHeader = some (extractOrGenerateRequestId
        [(rstr "x-request-id", rstr "req-1")]
        (rstr "0192c7a0-0000-7000-8000-000000000000")) := by
  have h := c9_request_id_trimmed_keep_rule [(rstr "x-request-id", rstr "req-1")] []
    (rstr "0192c7a0-0000-7000-8000-000000000000") (by decide)
  refine ⟨?_, h.2.2⟩
  exact ((h.1 (rstr "req-1") (by decide)).2).mpr (by decide)

/-! ## C4: token extraction and authorization -/

/-- The candidate a single token source yields, written from the claim: for
`AuthorizationBearer`, the Authorization header parsed as `Bearer <token>`
(case-insensitive scheme, trimmed token); for `Header{name}`, the named
(readable, well-formed-name) header trimmed, when non-empty. -/
def sourceCandidate (headers : HMap) : TokenSourceConfig → Option RStr
  | .authorizationBearer =>
      ((hmGet headers (rstr "authorization")).bind headerValueToStr).bind parseBearerToken
  | .header name =>
      if isValidHeaderName name then
        match (hmGet headers name).bind headerValueToStr with
        | some text => if (rustTrim text).isEmpty then none else some (rustTrim text)
        | none => none
      else none

theorem parseBearerToken_ne_nil (v t : RStr) (h : parseBearerToken v = some t) :
    ¬ t.isEmpty = true := by
  unfold parseBearerToken at h
  cases hs : splitOnce ' ' (rustTrim v) with
  | none => rw [hs] at h; exact Option.noConfusion h
  | some p =>
      rw [hs] at h
      by_cases hb : eqIgnoreAsciiCase p.1 (rstr "bearer") = true
      · simp only [hb, if_true, Bool.not_true, Bool.false_eq_true, if_false] at h
        by_cases he : (rustTrim p.2).isEmpty = true
        · rw [if_pos he] at h
          exact Option.noConfusion h
        · rw [if_neg he] at h
          rw [← Option.some.inj h]
          exact he
      · simp [hb] at h

/-- C4: token extraction walks `token_sources` in order taking the first
source that yields a (necessarily non-empty) candidate; the request is
authorized iff that token byte-equals an element of the allow-list, and an
unauthorized request is answered `401` with error code `unauthorized`. -/
theorem c4_auth_first_source_allowlist (headers : HMap) (ga : GatewayAuthConfig) :
    (∀ s rest, extractToken headers (s :: rest) =
      (match sourceCandidate headers s with
        | some c => some c
        | none => extractToken headers rest)) ∧
    (∀ s c, sourceCandidate headers s = some c → ¬ c.isEmpty = true) ∧
    (∀ tok, extractAuthorizedToken headers ga = some tok ↔
      (extractToken headers ga.tokenSources = some tok ∧ tok ∈ ga.tokens)) ∧
    (authAdmission headers ga = .error (401, rstr "unauthorized") ↔
      extractAuthorizedToken headers ga = none) := by
  refine ⟨?_, ?_, ?_, ?_⟩
  · intro s rest
    cases s with
    | authorizationBearer =>
        simp only [extractToken, sourceCandidate]
        cases hv : (hmGet headers (rstr "authorization")).bind headerValueToStr with
        | none => rfl
        | some text =>
            cases hp : parseBearerToken text <;> simp [hp]
    | header name =>
        simp only [extractToken, sourceCandidate]
        by_cases hn : isValidHeaderName name = true
        · simp only [hn, if_true]
          cases hv : (hmGet headers name).bind headerValueToStr with
          | none => rfl
          | some text =>
              by_cases he : (rustTrim text).isEmpty = true
              · simp [he]
              · simp [he]
        · simp [hn]
  · intro s c hc
    cases s with
    | authorizationBearer =>
        simp only [sourceCandidate] at hc
        cases hv : (hmGet headers (rstr "authorization")).bind headerValueToStr with
        | none => rw [hv] at hc; exact Option.noConfusion hc
        | some text =>
            rw [hv] at hc
            simp only [Option.some_bind] at hc
            exact parseBearerToken_ne_nil text c hc
    | header name =>
        simp only [sourceCandidate] at hc
        by_cases hn : isValidHeaderName name = true
        · rw [if_pos hn] at hc
          cases hv : (hmGet headers name).bind headerValueToStr with
          | none => rw [hv] at hc; exact Option.noConfusion hc
          | some text =>
              rw [hv] at hc
              have hc2 : (if (rustTrim text).isEmpty = true then none
                  else some (rustTrim text)) = some c := hc
              by_cases he : (rustTrim text).isEmpty = true
              · rw [if_pos he] at hc2
                exact Option.noConfusion hc2
              · rw [if_neg he] at hc2
                rw [← Option.some.inj hc2]
                exact he
        · rw [if_neg hn] at hc
          exact Option.noConfusion hc
  · intro tok
    unfold extractAuthorizedToken
    cases hx : extractToken headers ga.tokenSources with
    | none => simp
    | some t =>
        constructor
        · intro h
          have h2 : (if ga.tokens.any (fun allowed => allowed = t) = true
              then some t else none) = some tok := h
          by_cases hmem : ga.tokens.any (fun allowed => allowed = t) = true
          · rw [if_pos hmem] at h2
            have ht : t = tok := Option.some.inj h2
            subst ht
            obtain ⟨a, ha, hae⟩ := List.any_eq_true.mp hmem
            refine ⟨rfl, ?_⟩
            rw [← (by simpa using hae : a = t)]
            exact ha
          · rw [if_neg hmem] at h2
            exact Option.noConfusion h2
        · rintro ⟨h1, h2⟩
          have ht : t = tok := Option.some.inj h1
          subst ht
          have hmem : ga.tokens.any (fun allowed => allowed = t) = true :=
            List.any_eq_true.mpr ⟨t, h2, by simp⟩
          show (if ga.tokens.any (fun allowed => allowed = t) = true
              then some t else none) = some t
          rw [if_pos hmem]
  · unfold authAdmission
    cases hx : extractAuthorizedToken headers ga with
    | none => simp
    | some t => simp

/-- C4 witness: `Authorization: Bearer gw_token` against the allow-list
`[gw_token]` is authorized; against `[other]` it yields 401 unauthorized. -/
theorem c4_auth_first_source_allowlist_witness :
    extractAuthorizedToken [(rstr "authorization", rstr "Bearer gw_token")]
      { tokens := [rstr "gw_token"], tokenSources := [.authorizationBearer] } =
      some (rstr "gw_token") ∧
    authAdmission [(rstr "authorization", rstr "Bearer gw_token")]
      { tokens := [rstr "other"], tokenSources := [.authorizationBearer] } =
      .error (401, rstr "unauthorized") := by
  constructor
  · exact ((c4_auth_first_source_allowlist
      [(rstr "authorization", rstr "Bearer gw_token")]
      { tokens := [rstr "gw_token"], tokenSources := [.authorizationBearer] }).2.2.1
      (rstr "gw_token")).mpr ⟨by decide, by decide⟩
  · exact ((c4_auth_first_source_allowlist
      [(rstr "authorization", rstr "Bearer gw_token")]
      { tokens := [rstr "other"], tokenSources := [.authorizationBearer] }).2.2.2).mpr
      (by decide)

/-! ## C1: SSE classification and the response-body deadline -/

theorem erd_get_ok (deadline : Nat) (chunks : List (Nat × RStr)) (endsAt : Nat) :
    ∀ i c, (enforceResponseDeadline deadline chunks endsAt).get? i = some (.ok c) →
      ∃ t, chunks.get? i = some (t, c) ∧ t ≤ deadline := by
  induction chunks with
  | nil =>
      intro i c h
      unfold enforceResponseDeadline at h
      by_cases he : endsAt ≤ deadline
      · rw [if_pos he] at h
        simp at h
      · rw [if_neg he] at h
        cases i with
        | zero => simp at h
        | succ j => simp at h
  | cons p rest ih =>
      intro i c h
      obtain ⟨t, c0⟩ := p
      unfold enforceResponseDeadline at h
      by_cases ht : t ≤ deadline
      · rw [if_pos ht] at h
        cases i with
        | zero =>
            simp at h
            exact ⟨t, by simp [h], ht⟩
        | succ j =>
            simp only [List.get?] at h ⊢
            exact ih j c h
      · rw [if_neg ht] at h
        cases i with
        | zero => simp at h
        | succ j => simp at h

theorem erd_timeout (deadline : Nat) (chunks : List (Nat × RStr)) (endsAt : Nat)
    (h : (∃ p ∈ chunks, deadline < p.1) ∨ deadline < endsAt) :
    Except.error IoErrorKind.timedOut ∈ enforceResponseDeadline deadline chunks endsAt := by
  induction chunks with
  | nil =>
      unfold enforceResponseDeadline
      rcases h with ⟨p, hp, -⟩ | hend
      · simp at hp
      · rw [if_neg (by omega)]
        simp
  | cons p rest ih =>
      obtain ⟨t, c⟩ := p
      unfold enforceResponseDeadline
      by_cases ht : t ≤ deadline
      · rw [if_pos ht]
        refine List.mem_cons.mpr (Or.inr (ih ?_))
        rcases h with ⟨q, hq, hqd⟩ | hend
        · rcases List.mem_cons.mp hq with rfl | hq2
          · simp at hqd; omega
          · exact Or.inl ⟨q, hq2, hqd⟩
        · exact Or.inr hend
      · rw [if_neg ht]
        simp

theorem erd_all_ok (deadline : Nat) (chunks : List (Nat × RStr)) (endsAt : Nat)
    (h1 : ∀ p ∈ chunks, p.1 ≤ deadline) (h2 : endsAt ≤ deadline) :
    enforceResponseDeadline deadline chunks endsAt =
      chunks.map (fun p => .ok p.2) := by
  induction chunks with
  | nil =>
      unfold enforceResponseDeadline
      rw [if_pos h2]
      rfl
  | cons p rest ih =>
      obtain ⟨t, c⟩ := p
      unfold enforceResponseDeadline
      rw [if_pos (by simpa using h1 (t, c) (by simp))]
      simp only [List.map_cons]
      congr 1
      exact ih (fun q hq => h1 q (List.mem_cons.mpr (Or.inr hq)))

/-- C1: a response is classified SSE iff its readable Content-Type has media
type (the segment before `;`, trimmed) equal to `text/event-stream`
case-insensitively — a missing or unreadable Content-Type is non-SSE; for a
non-SSE response every forwarded chunk was available by the single deadline
`now + request_timeout_ms` computed before the send, a deadline violation
mid-body surfaces as an io error of kind timed-out, and a body fully
available by the deadline is forwarded whole; for an SSE response the body
is forwarded with no deadline at all. -/
theorem c1_sse_classification_and_deadline (respHeaders : HMap) (now : Nat)
    (route : RouteConfig) (body : UpstreamBody) :
    (isSseResponse respHeaders = true ↔
      ∃ v s, hmGet respHeaders (rstr "content-type") = some v ∧
        headerValueToStr v = some s ∧
        eqIgnoreAsciiCase (rustTrim (takeUntilChar ';' s)) (rstr "text/event-stream") = true) ∧
    (isSseResponse respHeaders = false →
      ∀ i c, (forwardedBodyStream now route respHeaders body).get? i = some (.ok c) →
        ∃ t, body.chunks.get? i = some (t, c) ∧
          t ≤ forwardDeadline now route.upstream.requestTimeoutMs) ∧
    (isSseResponse respHeaders = false →
      ((∃ p ∈ body.chunks, forwardDeadline now route.upstream.requestTimeoutMs < p.1) ∨
        forwardDeadline now route.upstream.requestTimeoutMs < body.endsAt) →
      Except.error IoErrorKind.timedOut ∈ forwardedBodyStream now route respHeaders body) ∧
    (isSseResponse respHeaders = false →
      (∀ p ∈ body.chunks, p.1 ≤ forwardDeadline now route.upstream.requestTimeoutMs) →
      body.endsAt ≤ forwardDeadline now route.upstream.requestTimeoutMs →
      forwardedBodyStream now route respHeaders body =
        body.chunks.map (fun p => .ok p.2)) ∧
    (isSseResponse respHeaders = true →
      forwardedBodyStream now route respHeaders body =
        body.chunks.map (fun p => .ok p.2)) := by
  refine ⟨?_, ?_, ?_, ?_, ?_⟩
  · unfold isSseResponse
    cases hv : (hmGet respHeaders (rstr "content-type")).bind headerValueToStr with
    | none =>
        simp only [Bool.false_eq_true, false_iff]
        rintro ⟨v, s, hget, htostr, -⟩
        rw [hget] at hv
        simp only [Option.some_bind] at hv
        rw [htostr] at hv
        exact Option.noConfusion hv
    | some s =>
        cases hget : hmGet respHeaders (rstr "content-type") with
        | none => rw [hget] at hv; exact Option.noConfusion hv
        | some v =>
            rw [hget] at hv
            simp only [Option.some_bind] at hv
            constructor
            · intro h
              exact ⟨v, s, rfl, hv, h⟩
            · rintro ⟨v2, s2, hget2, htostr2, heq2⟩
              have hv2 : v2 = v := (Option.some.inj hget2).symm
              subst hv2
              have hs2 : s2 = s := Option.some.inj (htostr2.symm.trans hv)
              subst hs2
              exact heq2
  · intro hsse i c h
    unfold forwardedBodyStream responseBodyStream at h
    rw [hsse] at h
    simp only [Bool.false_eq_true, if_false] at h
    exact erd_get_ok _ _ _ i c h
  · intro hsse hviol
    unfold forwardedBodyStream responseBodyStream
    rw [hsse]
    simp only [Bool.false_eq_true, if_false]
    exact erd_timeout _ _ _ hviol
  · intro hsse h1 h2
    unfold forwardedBodyStream responseBodyStream
    rw [hsse]
    simp only [Bool.false_eq_true, if_false]
    exact erd_all_ok _ _ _ h1 h2
  · intro hsse
    unfold forwardedBodyStream responseBodyStream
    rw [hsse]
    simp

/-- C1 witness: a `Content-Type: text/event-stream; charset=utf-8` response
is SSE and its late chunk (arriving after the deadline) is still forwarded;
an `application/octet-stream` response with a chunk past the deadline
`now + request_timeout_ms = 0 + 80` yields a timed-out error. -/
theorem c1_sse_classification_and_deadline_witness :
    isSseResponse [(rstr "content-type", rstr "Text/Event-Stream; charset=utf-8")] = true ∧
    forwardedBodyStream 0
        { id := rstr "r", pfx := rstr "/r",
          upstream := { sampleUpstream with requestTimeoutMs := 80 } }
        [(rstr "content-type", rstr "Text/Event-Stream; charset=utf-8")]
        { chunks := [(120, rstr "data: delayed")], endsAt := 121 } =
      [.ok (rstr "data: delayed")] ∧
    Except.error IoErrorKind.timedOut ∈ forwardedBodyStream 0
        { id := rstr "r", pfx := rstr "/r",
          upstream := { sampleUpstream with requestTimeoutMs := 80 } }
        [(rstr "content-type", rstr "application/octet-stream")]
        { chunks := [(120, rstr "late")], endsAt := 121 } := by
  have hsse := c1_sse_classification_and_deadline
    [(rstr "content-type", rstr "Text/Event-Stream; charset=utf-8")] 0
    { id := rstr "r", pfx := rstr "/r",
      upstream := { sampleUpstream with requestTimeoutMs := 80 } }
    { chunks := [(120, rstr "data: delayed")], endsAt := 121 }
  have hplain := c1_sse_classification_and_deadline
    [(rstr "content-type", rstr "application/octet-stream")] 0
    { id := rstr "r", pfx := rstr "/r",
      upstream := { sampleUpstream with requestTimeoutMs := 80 } }
    { chunks := [(120, rstr "late")], endsAt := 121 }
  refine ⟨by decide, ?_, ?_⟩
  · have := hsse.2.2.2.2 (by decide)
    simpa using this
  · exact hplain.2.2.1 (by decide)
      (Or.inl ⟨(120, rstr "late"), by simp, by decide⟩)

/-! ## C6: upstream-key derivation for per-key concurrency -/

theorem find?_eq_head?_filter {α : Type} (p : α → Bool) (l : List α) :
    l.find? p = (l.filter p).head? := by
  induction l with
  | nil => rfl
  | cons a rest ih =>
      by_cases h : p a = true
      · rw [List.find?_cons_of_pos _ h, List.filter_cons_of_pos h]
        rfl
      · rw [List.find?_cons_of_neg _ h, List.filter_cons_of_neg (by simpa using h)]
        exact ih

theorem reverse_find?_eq_getLast?_filter {α : Type} (p : α → Bool) (l : List α) :
    l.reverse.find? p = (l.filter p).getLast? := by
  rw [find?_eq_head?_filter, List.filter_reverse, List.head?_reverse]

/-- The LAST injected entry whose trimmed name matches, in filter/getLast?
form (spec reading of the `.rev().find` the source performs). -/
def lastNameMatch (route : RouteConfig) (headerName : RStr) : Option HeaderInjection :=
  (route.upstream.injectHeaders.filter
    (fun h => eqIgnoreAsciiCase (rustTrim h.name) headerName)).getLast?

/-- The per-name lookup as the AMENDED claim words it: take the last entry
matching the name, and keep its trimmed value only when non-empty. -/
def specFindAmended (route : RouteConfig) (headerName : RStr) : Option RStr :=
  ((lastNameMatch route headerName).map (fun h => rustTrim h.value)).filter
    (fun v => ¬ v.isEmpty)

/-- The per-name lookup as the ORIGINAL claim words it: the last match whose
trimmed value is non-empty. -/
def lastNonEmptyMatch (route : RouteConfig) (headerName : RStr) : Option RStr :=
  ((route.upstream.injectHeaders.filter (fun h =>
      eqIgnoreAsciiCase (rustTrim h.name) headerName ∧
      ¬ (rustTrim h.value).isEmpty)).getLast?).map (fun h => rustTrim h.value)

/-- The scan loop as the ORIGINAL claim words it. -/
def claimedUpstreamKeyGo (route : RouteConfig) : List RStr → Option RStr
  | [] => none
  | hn :: rest =>
      match lastNonEmptyMatch route hn with
      | none => claimedUpstreamKeyGo route rest
      | some text =>
          if eqIgnoreAsciiCase hn (rstr "authorization") then
            some (rstr "authorization:" ++ ((parseBearerTokenNoTrim text).getD text))
          else
            some (hn ++ ':' :: text)

/-- The key material as the ORIGINAL claim words it. -/
def claimedUpstreamKeyMaterial (route : RouteConfig) : RStr :=
  (claimedUpstreamKeyGo route upstreamKeyHeaderNames).getD (rstr "default")

/-- The scan loop under the AMENDED per-name lookup. -/
def amendedUpstreamKeyGo (route : RouteConfig) : List RStr → Option RStr
  | [] => none
  | hn :: rest =>
      match specFindAmended route hn with
      | none => amendedUpstreamKeyGo route rest
      | some text =>
          if eqIgnoreAsciiCase hn (rstr "authorization") then
            some (rstr "authorization:" ++ ((parseBearerTokenNoTrim text).getD text))
          else
            some (hn ++ ':' :: text)

/-- The key material under the AMENDED per-name lookup. -/
def amendedUpstreamKeyMaterial (route : RouteConfig) : RStr :=
  (amendedUpstreamKeyGo route upstreamKeyHeaderNames).getD (rstr "default")

theorem findInjected_eq_specFindAmended (route : RouteConfig) (hn : RStr) :
    findInjectedHeaderValue route hn = specFindAmended route hn := by
  unfold findInjectedHeaderValue specFindAmended lastNameMatch
  rw [reverse_find?_eq_getLast?_filter]

/-- C6 (counterexample): with injections
`[authorization: "Bearer tok", authorization: "  "]` the last `authorization`
match has an empty trimmed value, so the code skips the name entirely and
falls back to the literal `default` — it does NOT use the last NON-EMPTY
match `Bearer tok` the claim prescribes. -/
theorem c6_counterexample_last_match_not_last_non_empty :
    upstreamKeyMaterial
      { id := rstr "r", pfx := rstr "/a",
        upstream := { sampleUpstream with
          injectHeaders := [⟨rstr "authorization", rstr "Bearer tok"⟩,
                            ⟨rstr "authorization", rstr "  "⟩],
          upstreamKeyMaxInflight := some 1 } } = rstr "default" ∧
    claimedUpstreamKeyMaterial
      { id := rstr "r", pfx := rstr "/a",
        upstream := { sampleUpstream with
          injectHeaders := [⟨rstr "authorization", rstr "Bearer tok"⟩,
                            ⟨rstr "authorization", rstr "  "⟩],
          upstreamKeyMaxInflight := some 1 } } = rstr "authorization:tok" ∧
    rstr "default" ≠ rstr "authorization:tok" := by
  refine ⟨by decide, by decide, by decide⟩

/-- C6 (amended): for a route with an effective upstream-key limit (route
override first, else the global default), the key material scans
`authorization` then `x-api-key` (case-insensitively against trimmed
injected names), takes the LAST match for each name and keeps it only when
its trimmed value is non-empty; an `authorization` value parsing as
`Bearer <token>` contributes `authorization:<token>`, otherwise the material
is `name:value`; with no usable injected header it is the literal
`default`; and the semaphore-map key is `{route_id}:{16-hex fingerprint}`
(fp abstracts the std `DefaultHasher`). -/
theorem c6_upstream_key_material_and_semaphore_key (fp : RStr → Nat)
    (upstreamDefaultLimit : Option Nat) (route : RouteConfig) :
    (acquireUpstreamKey fp upstreamDefaultLimit route = none ↔
      (route.upstream.upstreamKeyMaxInflight = none ∧ upstreamDefaultLimit = none)) ∧
    (∀ limit key, acquireUpstreamKey fp upstreamDefaultLimit route = some (limit, key) →
      (route.upstream.upstreamKeyMaxInflight = some limit ∨
        (route.upstream.upstreamKeyMaxInflight = none ∧
          upstreamDefaultLimit = some limit)) ∧
      key = route.id ++ ':' :: hex16 (fp (upstreamKeyMaterial route) % 2 ^ 64)) ∧
    (∀ hn, findInjectedHeaderValue route hn = specFindAmended route hn) ∧
    upstreamKeyMaterial route = amendedUpstreamKeyMaterial route ∧
    (extractUpstreamKeyFromInjectedHeaders route = none →
      upstreamKeyMaterial route = rstr "default") ∧
    (hex16 (fp (upstreamKeyMaterial route) % 2 ^ 64)).length = 16 := by
  refine ⟨?_, ?_, findInjected_eq_specFindAmended route, ?_, ?_, ?_⟩
  · unfold acquireUpstreamKey
    cases hk : route.upstream.upstreamKeyMaxInflight with
    | some l => simp
    | none =>
        cases hd : upstreamDefaultLimit with
        | some l => simp
        | none => simp
  · intro limit key h
    unfold acquireUpstreamKey at h
    cases hk : route.upstream.upstreamKeyMaxInflight with
    | some l =>
        rw [hk] at h
        have := Option.some.inj h
        have hl : l = limit := congrArg Prod.fst this
        have hkey : semaphoreKey fp route = key := congrArg Prod.snd this
        subst hl
        exact ⟨Or.inl rfl, by rw [← hkey]; rfl⟩
    | none =>
        rw [hk] at h
        cases hd : upstreamDefaultLimit with
        | some l =>
            rw [hd] at h
            have := Option.some.inj h
            have hl : l = limit := congrArg Prod.fst this
            have hkey : semaphoreKey fp route = key := congrArg Prod.snd this
            subst hl
            exact ⟨Or.inr ⟨rfl, rfl⟩, by rw [← hkey]; rfl⟩
        | none =>
            rw [hd] at h
            exact Option.noConfusion h
  · have hgo : ∀ names, extractUpstreamKeyGo route names = amendedUpstreamKeyGo route names := by
      intro names
      induction names with
      | nil => rfl
      | cons hn rest ih =>
          unfold extractUpstreamKeyGo amendedUpstreamKeyGo
          rw [findInjected_eq_specFindAmended route hn]
          cases specFindAmended route hn with
          | none => exact ih
          | some text => rfl
    unfold upstreamKeyMaterial amendedUpstreamKeyMaterial extractUpstreamKeyFromInjectedHeaders
    rw [hgo]
  · intro h
    unfold upstreamKeyMaterial
    rw [h]
    rfl
  · unfold hex16
    simp

/-- C6 witness: a route injecting `authorization: Bearer tok` with a route
override limit of 3 yields material `authorization:tok` and the semaphore
key `r:<16 hex digits>` (here with the everywhere-zero stand-in hash). -/
theorem c6_upstream_key_material_and_semaphore_key_witness :
    upstreamKeyMaterial
      { id := rstr "r", pfx := rstr "/a",
        upstream := { sampleUpstream with
          injectHeaders := [⟨rstr "authorization", rstr "Bearer tok"⟩],
          upstreamKeyMaxInflight := some 3 } } = rstr "authorization:tok" ∧
    acquireUpstreamKey (fun _ => 0) none
      { id := rstr "r", pfx := rstr "/a",
        upstream := { sampleUpstream with
          injectHeaders := [⟨rstr "authorization", rstr "Bearer tok"⟩],
          upstreamKeyMaxInflight := some 3 } } =
      some (3, rstr "r:0000000000000000") := by
  have h := c6_upstream_key_material_and_semaphore_key (fun _ => 0) none
    { id := rstr "r", pfx := rstr "/a",
      upstream := { sampleUpstream with
        injectHeaders := [⟨rstr "authorization", rstr "Bearer tok"⟩],
        upstreamKeyMaxInflight := some 3 } }
  refine ⟨by decide, ?_⟩
  have hnone := h.1
  cases hacq : acquireUpstreamKey (fun _ => 0) none
      { id := rstr "r", pfx := rstr "/a",
        upstream := { sampleUpstream with
          injectHeaders := [⟨rstr "authorization", rstr "Bearer tok"⟩],
          upstreamKeyMaxInflight := some 3 } } with
  | none =>
      exfalso
      have := hnone.mp hacq
      exact Option.noConfusion this.1
  | some p =>
      obtain ⟨limit, key⟩ := p
      have hchar := h.2.1 limit key hacq
      have hlim : limit = 3 := by
        rcases hchar.1 with hl | ⟨-, hl⟩
        · exact (Option.some.inj hl).symm
        · exact Option.noConfusion hl
      have hkey : key = rstr "r:0000000000000000" := by
        rw [hchar.2]
        decide
      rw [hlim, hkey]

/-! ## C3: the outbound header pipeline -/

theorem hmGet_removeCI (m : HMap) (k n : RStr) :
    hmGet (removeHeaderCI m k) n =
      if isValidHeaderName k = true ∧ asciiLower n = asciiLower k then none
      else hmGet m n := by
  unfold removeHeaderCI
  by_cases hv : isValidHeaderName k = true
  · rw [if_pos hv, hmGet_remove]
    by_cases hL : asciiLower n = asciiLower k
    · rw [if_pos hL, if_pos ⟨hv, hL⟩]
    · rw [if_neg hL, if_neg (fun hc => hL hc.2)]
  · rw [if_neg hv, if_neg (fun hc => hv hc.1)]

theorem hmGet_foldl_removeCI (names : List RStr) (m : HMap) (n : RStr) :
    hmGet (names.foldl removeHeaderCI m) n =
      if ∃ k ∈ names, isValidHeaderName k = true ∧ asciiLower n = asciiLower k then none
      else hmGet m n := by
  induction names generalizing m with
  | nil => simp
  | cons k rest ih =>
      rw [List.foldl_cons, ih]
      by_cases hrest : ∃ k2 ∈ rest, isValidHeaderName k2 = true ∧ asciiLower n = asciiLower k2
      · rw [if_pos hrest, if_pos ?_]
        obtain ⟨k2, hmem, hp⟩ := hrest
        exact ⟨k2, List.mem_cons.mpr (Or.inr hmem), hp⟩
      · rw [if_neg hrest, hmGet_removeCI]
        by_cases hk : isValidHeaderName k = true ∧ asciiLower n = asciiLower k
        · rw [if_pos hk, if_pos ⟨k, List.mem_cons.mpr (Or.inl rfl), hk⟩]
        · rw [if_neg hk, if_neg ?_]
          rintro ⟨k2, hmem, hp⟩
          rcases List.mem_cons.mp hmem with rfl | hmem2
          · exact hk hp
          · exact hrest ⟨k2, hmem2, hp⟩

theorem exists_fixed_name_iff (names : List RStr)
    (hfixed : ∀ k ∈ names, isValidHeaderName k = true ∧ asciiLower k = k) (n : RStr) :
    (∃ k ∈ names, isValidHeaderName k = true ∧ asciiLower n = asciiLower k) ↔
      asciiLower n ∈ names := by
  constructor
  · rintro ⟨k, hk, -, he⟩
    rw [(hfixed k hk).2] at he
    rw [he]
    exact hk
  · intro hm
    exact ⟨asciiLower n, hm, (hfixed _ hm).1, (asciiLower_idem n).symm⟩

/-- The LAST injected entry whose parsed (lowercased) header name collides
with `n`, as the `.rev().find` the upsert-fold effectively realises. -/
def lastInjMatch (injs : List HeaderInjection) (n : RStr) : Option HeaderInjection :=
  injs.reverse.find? (fun inj => asciiLower inj.name = asciiLower n)

theorem lastInjMatch_cons (inj : HeaderInjection) (rest : List HeaderInjection) (n : RStr) :
    lastInjMatch (inj :: rest) n =
      match lastInjMatch rest n with
      | some x => some x
      | none => if asciiLower inj.name = asciiLower n then some inj else none := by
  unfold lastInjMatch
  rw [List.reverse_cons, List.find?_append]
  cases hx : rest.reverse.find? (fun inj => asciiLower inj.name = asciiLower n) with
  | some x => simp
  | none =>
      simp only [Option.none_orElse]
      by_cases h : asciiLower inj.name = asciiLower n
      · rw [List.find?_cons_of_pos _ (by simpa using h), if_pos h]
        rfl
      · rw [List.find?_cons_of_neg _ (by simpa using h), if_neg h]
        rfl

theorem foldlM_upsert_characterisation (injs : List HeaderInjection)
    (hvalid : ∀ inj ∈ injs,
      isValidHeaderName inj.name = true ∧ isValidHeaderValue inj.value = true) :
    ∀ m : HMap, ∃ m2, injs.foldlM upsertHeader m = .ok m2 ∧
      ∀ n, hmGet m2 n =
        (match lastInjMatch injs n with
          | some inj => some inj.value
          | none => hmGet m n) := by
  induction injs with
  | nil =>
      intro m
      exact ⟨m, rfl, fun n => rfl⟩
  | cons inj rest ih =>
      intro m
      have hv := hvalid inj (List.mem_cons.mpr (Or.inl rfl))
      have hup : upsertHeader m inj = .ok (hmInsert m (asciiLower inj.name) inj.value) := by
        unfold upsertHeader
        rw [if_neg (by simp [hv.1]), if_neg (by simp [hv.2])]
      obtain ⟨m2, hfold, hch⟩ := ih
        (fun i hi => hvalid i (List.mem_cons.mpr (Or.inr hi)))
        (hmInsert m (asciiLower inj.name) inj.value)
      refine ⟨m2, ?_, ?_⟩
      · rw [List.foldlM_cons, hup]
        simpa using hfold
      · intro n
        rw [hch n, lastInjMatch_cons]
        cases hl : lastInjMatch rest n with
        | some x => rfl
        | none =>
            simp only []
            rw [hmGet_insert]
            have hidem : asciiLower (asciiLower inj.name) = asciiLower inj.name :=
              asciiLower_idem inj.name
            by_cases h : asciiLower inj.name = asciiLower n
            · rw [if_pos (by rw [hidem]; exact h.symm), if_pos h]
            · rw [if_neg (by rw [hidem]; exact fun hc => h hc.symm), if_neg h]

theorem removal_stages_get (inbound : HMap) (u : UpstreamConfig) (n : RStr) :
    hmGet (if ¬ u.forwardXff then
        forwardedIpHeaders.foldl removeHeaderCI
          (u.removeHeaders.foldl removeHeaderCI
            (hopByHopHeaders.foldl removeHeaderCI inbound))
      else
        u.removeHeaders.foldl removeHeaderCI
          (hopByHopHeaders.foldl removeHeaderCI inbound)) n =
    if asciiLower n ∈ hopByHopHeaders
        ∨ (∃ k ∈ u.removeHeaders, isValidHeaderName k = true ∧
            asciiLower n = asciiLower k)
        ∨ (u.forwardXff = false ∧ asciiLower n ∈ forwardedIpHeaders)
      then none else hmGet inbound n := by
  have hhop := (exists_fixed_name_iff hopByHopHeaders (by decide) n)
  have hxff := (exists_fixed_name_iff forwardedIpHeaders (by decide) n)
  by_cases hfwd : u.forwardXff = true
  · rw [if_neg (by simp [hfwd])]
    rw [hmGet_foldl_removeCI, hmGet_foldl_removeCI]
    by_cases h2 : ∃ k ∈ u.removeHeaders, isValidHeaderName k = true ∧
        asciiLower n = asciiLower k
    · rw [if_pos h2, if_pos (Or.inr (Or.inl h2))]
    · rw [if_neg h2]
      by_cases h1 : asciiLower n ∈ hopByHopHeaders
      · rw [if_pos (hhop.mpr h1), if_pos (Or.inl h1)]
      · rw [if_neg (fun hc => h1 (hhop.mp hc)), if_neg ?_]
        rintro (hc | hc | hc)
        · exact h1 hc
        · exact h2 hc
        · rw [hfwd] at hc
          exact Bool.noConfusion hc.1
  · have hfwd2 : u.forwardXff = false := by
      cases hb : u.forwardXff
      · rfl
      · exact absurd hb hfwd
    rw [if_pos (by simp [hfwd2])]
    rw [hmGet_foldl_removeCI, hmGet_foldl_removeCI, hmGet_foldl_removeCI]
    by_cases h3 : asciiLower n ∈ forwardedIpHeaders
    · rw [if_pos (hxff.mpr h3), if_pos (Or.inr (Or.inr ⟨hfwd2, h3⟩))]
    · rw [if_neg (fun hc => h3 (hxff.mp hc))]
      by_cases h2 : ∃ k ∈ u.removeHeaders, isValidHeaderName k = true ∧
          asciiLower n = asciiLower k
      · rw [if_pos h2, if_pos (Or.inr (Or.inl h2))]
      · rw [if_neg h2]
        by_cases h1 : asciiLower n ∈ hopByHopHeaders
        · rw [if_pos (hhop.mpr h1), if_pos (Or.inl h1)]
        · rw [if_neg (fun hc => h1 (hhop.mp hc)), if_neg ?_]
          rintro (hc | hc | hc)
          · exact h1 hc
          · exact h2 hc
          · exact h3 hc.2

/-- The content of the outbound header map, name by name, as the claim
describes it: `Host` is absent; an injected name carries the LAST injected
value for that name; otherwise a name removed as hop-by-hop, via
`remove_headers`, or as an IP-forwarding header (when `forward_xff` is
false) is absent; every other name keeps its inbound value. -/
def preparedHeaderValue (inbound : HMap) (u : UpstreamConfig) (n : RStr) : Option RStr :=
  if asciiLower n = rstr "host" then none
  else
    match lastInjMatch u.injectHeaders n with
    | some inj => some inj.value
    | none =>
        if asciiLower n ∈ hopByHopHeaders
            ∨ (∃ k ∈ u.removeHeaders, isValidHeaderName k = true ∧
                asciiLower n = asciiLower k)
            ∨ (u.forwardXff = false ∧ asciiLower n ∈ forwardedIpHeaders)
          then none else hmGet inbound n

/-- C3: with well-formed injected headers, `prepare_upstream_headers`
succeeds and produces exactly the map described by the ordered pipeline: hop
removal, `remove_headers` removal, IP-forwarding removal when
`forward_xff = false`, in-order upsert of `inject_headers` (so an injected
name supersedes every earlier removal and carries its LAST injected value),
and a final removal of `Host`. -/
theorem c3_prepare_upstream_headers (inbound : HMap) (u : UpstreamConfig)
    (hvalid : ∀ inj ∈ u.injectHeaders,
      isValidHeaderName inj.name = true ∧ isValidHeaderValue inj.value = true) :
    ∃ m, prepareUpstreamHeaders inbound u = .ok m ∧
      ∀ n, hmGet m n = preparedHeaderValue inbound u n := by
  obtain ⟨m4, hfold, hch⟩ := foldlM_upsert_characterisation u.injectHeaders hvalid
    (if ¬ u.forwardXff then
        forwardedIpHeaders.foldl removeHeaderCI
          (u.removeHeaders.foldl removeHeaderCI
            (hopByHopHeaders.foldl removeHeaderCI inbound))
      else
        u.removeHeaders.foldl removeHeaderCI
          (hopByHopHeaders.foldl removeHeaderCI inbound))
  refine ⟨hmRemove m4 (rstr "host"), ?_, ?_⟩
  · show (u.injectHeaders.foldlM upsertHeader
        (if ¬ u.forwardXff then
            forwardedIpHeaders.foldl removeHeaderCI
              (u.removeHeaders.foldl removeHeaderCI
                (hopByHopHeaders.foldl removeHeaderCI inbound))
          else
            u.removeHeaders.foldl removeHeaderCI
              (hopByHopHeaders.foldl removeHeaderCI inbound))).bind
        (fun m => .ok (hmRemove m (rstr "host"))) = _
    rw [hfold]
    rfl
  · intro n
    rw [hmGet_remove]
    unfold preparedHeaderValue
    have hhostfix : asciiLower (rstr "host") = rstr "host" := by decide
    rw [hhostfix]
    by_cases hhost : asciiLower n = rstr "host"
    · rw [if_pos hhost, if_pos hhost]
    · rw [if_neg hhost, if_neg hhost, hch n]
      cases hl : lastInjMatch u.injectHeaders n with
      | some inj => rfl
      | none =>
          simp only []
          exact removal_stages_get inbound u n

/-- C3 witness: the canonical pattern — remove the caller Authorization,
inject the upstream one; hop-by-hop and IP-forwarding headers disappear,
`Host` disappears, other headers survive. -/
theorem c3_prepare_upstream_headers_witness :
    ∃ m, prepareUpstreamHeaders
      [(rstr "connection", rstr "keep-alive"),
       (rstr "authorization", rstr "Bearer from-client"),
       (rstr "x-forwarded-for", rstr "1.2.3.4"),
       (rstr "host", rstr "gw.example"),
       (rstr "x-custom", rstr "1")]
      { sampleUpstream with
        injectHeaders := [⟨rstr "authorization", rstr "Bearer injected"⟩],
        removeHeaders := [rstr "authorization"] } = .ok m ∧
    hmGet m (rstr "authorization") = some (rstr "Bearer injected") ∧
    hmGet m (rstr "connection") = none ∧
    hmGet m (rstr "x-forwarded-for") = none ∧
    hmGet m (rstr "host") = none ∧
    hmGet m (rstr "x-custom") = some (rstr "1") := by
  obtain ⟨m, hm, hch⟩ := c3_prepare_upstream_headers
    [(rstr "connection", rstr "keep-alive"),
     (rstr "authorization", rstr "Bearer from-client"),
     (rstr "x-forwarded-for", rstr "1.2.3.4"),
     (rstr "host", rstr "gw.example"),
     (rstr "x-custom", rstr "1")]
    { sampleUpstream with
      injectHeaders := [⟨rstr "authorization", rstr "Bearer injected"⟩],
      removeHeaders := [rstr "authorization"] }
    (by decide)
  refine ⟨m, hm, ?_, ?_, ?_, ?_, ?_⟩
  · rw [hch]; decide
  · rw [hch]; decide
  · rw [hch]; decide
  · rw [hch]; decide
  · rw [hch]; decide

/-! ## C8: validation versus runtime-state building -/

/-- A config that FAILS validation (empty `gateway_auth.tokens`) but whose
runtime state still builds. -/
def c8Config : AppConfig :=
  { listen := rstr "127.0.0.1:8080",
    gatewayAuth := { tokens := [], tokenSources := [.authorizationBearer] },
    routes := [{ id := rstr "openai", pfx := rstr "/openai", upstream := sampleUpstream }],
    inboundTls := none, cors := none, rateLimit := none,
    concurrency := none, observability := none }

/-- C8 (counterexample): `build_app` never calls `validate`; this config is
rejected by validation yet builds successfully (it has no proxies, no
concurrency section, and registers only `/healthz`, which axum accepts), so
"every config that fails validation fails to build" is false. -/
theorem c8_counterexample_invalid_config_builds :
    validate (fun _ => true) c8Config =
      .error "`gateway_auth.tokens` must not be empty" ∧
    (buildApp { parseOk := fun _ => true, credsOk := fun _ => true }
      (fun _ => true) c8Config).isOk = true := by
  constructor
  · rfl
  · rfl

theorem buildUpstreamClients_ok_of_no_proxy (env : UrlEnv) (routes : List RouteConfig)
    (h : ∀ r ∈ routes, r.upstream.proxy = none) :
    (buildUpstreamClients env routes).isOk = true := by
  induction routes with
  | nil => rfl
  | cons r rest ih =>
      unfold buildUpstreamClients
      have hr : r.upstream.proxy = none := h r (List.mem_cons.mpr (Or.inl rfl))
      have hclient : buildUpstreamClient env r.upstream =
          .ok { connectTimeoutMs := r.upstream.connectTimeoutMs, proxyUrl := none } := by
        unfold buildUpstreamClient
        rw [hr]
      rw [hclient]
      have hrest := ih (fun x hx => h x (List.mem_cons.mpr (Or.inr hx)))
      cases hx : buildUpstreamClients env rest with
      | ok cs => rfl
      | error e => rw [hx] at hrest; exact Bool.noConfusion hrest

/-- C8 (amended): building the runtime state does not consult `validate` at
all: it succeeds iff the per-route upstream clients build (proxy-URL
construction being the per-route fallible step), the downstream semaphore
permit count is within the tokio bound, and axum accepts the registered
router paths (`/healthz` plus the metrics paths when metrics are enabled —
wiring panics, e.g. for a metrics path normalising to `/healthz`, are
reachable precisely because build skips validation); the built state
carries the configured rate limiter, concurrency controller and
observability runtime.  In particular a config with no proxies, an
in-bounds (or absent) downstream limit and no observability section
registers only `/healthz` and builds — also when validation fails, as the
counterexample config shows — so build success is NOT equivalent to
validation success. -/
theorem c8_build_ignores_validation (env : UrlEnv) (wiringOk : List RStr → Bool)
    (cfg : AppConfig) :
    ((buildApp env wiringOk cfg).isOk = true ↔
      ((buildUpstreamClients env cfg.routes).isOk = true ∧
        downstreamSemaphoreOk (concurrencyControllerNew cfg) = true ∧
        wiringOk (registeredRouterPaths cfg) = true)) ∧
    ((∀ r ∈ cfg.routes, r.upstream.proxy = none) →
      downstreamSemaphoreOk (concurrencyControllerNew cfg) = true →
      cfg.observability = none →
      wiringOk [rstr "/healthz"] = true →
      (buildApp env wiringOk cfg).isOk = true) ∧
    (∀ st, buildApp env wiringOk cfg = .ok st →
      st.rateLimiterPerMinute = cfg.rateLimit.map (fun rl => rl.perMinute) ∧
      st.concurrency = concurrencyControllerNew cfg ∧
      st.observability = observabilityFromConfig cfg.observability) := by
  have hreg_of_obs_none : cfg.observability = none →
      registeredRouterPaths cfg = [rstr "/healthz"] := by
    intro hobs
    unfold registeredRouterPaths
    rw [hobs]
    rfl
  refine ⟨?_, ?_, ?_⟩
  · unfold buildApp
    cases hx : buildUpstreamClients env cfg.routes with
    | ok cs =>
        by_cases hsem : downstreamSemaphoreOk (concurrencyControllerNew cfg) = true
        · by_cases hwir : wiringOk (registeredRouterPaths cfg) = true
          · simp [Except.isOk, Except.toBool, hsem, hwir]
          · simp [Except.isOk, Except.toBool, hsem, hwir]
        · simp [Except.isOk, Except.toBool, hsem]
    | error e => simp [Except.isOk, Except.toBool]
  · intro hproxy hsem hobs hwir
    unfold buildApp
    have hclients := buildUpstreamClients_ok_of_no_proxy env cfg.routes hproxy
    cases hx : buildUpstreamClients env cfg.routes with
    | ok cs =>
        have hreg := hreg_of_obs_none hobs
        simp [Except.isOk, Except.toBool, hsem, hreg, hwir]
    | error e => rw [hx] at hclients; exact Bool.noConfusion hclients
  · intro st h
    unfold buildApp at h
    cases hx : buildUpstreamClients env cfg.routes with
    | ok cs =>
        rw [hx] at h
        have h2 : (if ¬ downstreamSemaphoreOk (concurrencyControllerNew cfg) = true
              then (Except.error BuildAbort.semaphorePanic : Except BuildAbort AppStateModel)
            else if ¬ wiringOk (registeredRouterPaths cfg) = true
              then Except.error BuildAbort.wiringPanic
            else Except.ok
              { upstreamClients := cs,
                rateLimiterPerMinute := cfg.rateLimit.map (fun rl => rl.perMinute),
                concurrency := concurrencyControllerNew cfg,
                observability := observabilityFromConfig cfg.observability }) = .ok st := h
        by_cases hsem : downstreamSemaphoreOk (concurrencyControllerNew cfg) = true
        · rw [if_neg (by simp [hsem])] at h2
          by_cases hwir : wiringOk (registeredRouterPaths cfg) = true
          · rw [if_neg (by simp [hwir])] at h2
            have hst := (Except.ok.inj h2).symm
            subst hst
            exact ⟨rfl, rfl, rfl⟩
          · rw [if_pos (by simp [hwir])] at h2
            exact Except.noConfusion h2
        · rw [if_pos (by simp [hsem])] at h2
          exact Except.noConfusion h2
    | error e =>
        rw [hx] at h
        exact Except.noConfusion h

/-- C8 witness: the (validation-failing) counterexample config has no
proxies, no downstream limit and no observability section, so the amended
theorem rebuilds it successfully under the all-accepting axum model. -/
theorem c8_build_ignores_validation_witness :
    (buildApp { parseOk := fun _ => true, credsOk := fun _ => true }
      (fun _ => true) c8Config).isOk = true :=
  (c8_build_ignores_validation { parseOk := fun _ => true, credsOk := fun _ => true }
    (fun _ => true) c8Config).2.1 (by decide) (by decide) rfl rfl
